import Mathlib

/-
  Verification development for STLL's paragraph layout module
  (src/layoutParagraph.cpp).

  Modelling conventions:
  * `char32_t` codepoints are `Nat`; machine integers are `Int`/`Nat`
    (overflow is not exercised by any statement below);
  * C++ `float`/`double` arithmetic is idealised as `Rat`
    (division by zero yields 0 in `Rat`);
  * C++ truncating integer division is `Int.tdiv`;
  * external collaborators (fribidi, liblinebreak, libwordbreak,
    libhyphen dictionaries, the HarfBuzz shaper, FreeType font metrics)
    are function parameters;
  * C++ `while`/`for` loops are embedded as structurally recursive
    functions; loops whose bound is data dependent take an explicit
    fuel argument that callers instantiate with a bound that the loop
    can never exhaust (each iteration strictly advances an index that
    is bounded by the fuel);
  * out-of-range `std::vector` indexing (undefined behaviour in C++) is
    modelled by `List.getD` with a default element.
-/

set_option maxHeartbeats 1000000

namespace STLL

/-! Basic constants from liblinebreak / libwordbreak. -/

def LINEBREAK_MUSTBREAK : Nat := 0
def LINEBREAK_ALLOWBREAK : Nat := 1
def LINEBREAK_NOBREAK : Nat := 2
def LINEBREAK_INSIDEACHAR : Nat := 3

def WORDBREAK_BREAK : Nat := 0
def WORDBREAK_NOBREAK : Nat := 1

/-- Truncating integer division, the C semantics of `a / b` on `int`. -/
def cdiv (a b : Int) : Int := Int.tdiv a b

/-- Conversion of a C++ `double` to `int`: truncation toward zero. -/
def dtrunc (q : ℚ) : Int := if q < 0 then q.ceil else q.floor

/-- The `fabs` function on the rational model of `float`. -/
def qabs (q : ℚ) : ℚ := if q < 0 then -q else q

/-- The cube `pow(x, 3)`. -/
def qcube (q : ℚ) : ℚ := q * q * q

/-! The data model (stll/layouterFont.h, stll/layouter.h), reduced to the
    fields that layoutParagraph.cpp reads. -/

inductive CmdKind
  | glyph
  | rect
  | image
deriving DecidableEq, Inhabited

/-- CommandData_c: one drawing command.  The class is a single struct
    whose fields are used depending on the `command` tag; we keep that flat
    layout because addLine shifts `x`/`y`/`w` generically. -/
structure CommandData where
  command : CmdKind := .glyph
  font : Option Nat := none
  glyphIndex : Nat := 0
  x : Int := 0
  y : Int := 0
  w : Int := 0
  h : Int := 0
  c : Nat := 0
  blurr : Nat := 0
deriving DecidableEq, Inhabited

/-- CommandData_c glyph constructor. -/
def mkGlyphCmd (f : Option Nat) (gi : Nat) (x y : Int) (c : Nat) (blurr : Nat) :
    CommandData :=
  { command := .glyph, font := f, glyphIndex := gi, x := x, y := y, c := c, blurr := blurr }

/-- CommandData_c rectangle constructor. -/
def mkRectCmd (x y w h : Int) (c : Nat) (blurr : Nat) : CommandData :=
  { command := .rect, x := x, y := y, w := w, h := h, c := c, blurr := blurr }

/-- One entry of CodepointAttributes_c::shadows. -/
structure Shadow where
  dx : Int := 0
  dy : Int := 0
  c : Nat := 0
  blurr : Nat := 0
deriving DecidableEq, Inhabited

/-- An inline object (LayoutData_c inlay): prerendered draw commands plus
    extents. -/
structure Inlay where
  height : Int := 0
  right : Int := 0
  data : List CommandData := []
deriving DecidableEq, Inhabited

/-- A font family (FontFamily-like object held by an attribute): codepoint
    based fallback resolution plus aggregated underline metrics.  Fonts are
    identified by `Nat` ids; their metrics live in an environment
    `Nat → FontMetrics`. -/
structure FontFamily where
  get : Nat → Option Nat := fun _ => none
  underlinePosition : Int := 0
  underlineThickness : Int := 0

/-- CodepointAttributes_c. -/
structure Attr where
  lang : String := ""
  font : FontFamily := {}
  c : Nat := 0
  baseline_shift : Int := 0
  shadows : List Shadow := []
  inlay : Option Inlay := none
  link : Nat := 0
  flags : Nat := 0

def FL_UNDERLINE : Nat := 1

/-- Underline metrics of LayoutProperties_c::underlineFont. -/
structure UnderlineMetrics where
  underlinePosition : Int := 0
  underlineThickness : Int := 0

structure Rectangle where
  x : Int := 0
  y : Int := 0
  w : Int := 0
  h : Int := 0
deriving DecidableEq, Inhabited

/-- TextLayout_c::LinkInformation_c. -/
structure LinkInformation where
  url : String := ""
  areas : List Rectangle := []
deriving DecidableEq, Inhabited

/-- runInfo: one shaped run ready for paragraph assembly. -/
structure RunInfo where
  run : List (Nat × CommandData) := []
  dx : Int := 0
  dy : Int := 0
  embeddingLevel : Nat := 0
  linebreak : Nat := LINEBREAK_NOBREAK
  font : Option Nat := none
  space : Bool := false
  shy : Bool := false
  ascender : Int := 0
  descender : Int := 0
  links : List LinkInformation := []
deriving DecidableEq, Inhabited

/-- One entry of the shaper output (hb_glyph_info_t + hb_glyph_position_t). -/
structure GlyphData where
  codepoint : Nat := 0
  cluster : Nat := 0
  xOffset : Int := 0
  yOffset : Int := 0
  xAdvance : Int := 0
  yAdvance : Int := 0
deriving DecidableEq, Inhabited

/-- FontFace_c metrics consumed by createRun. -/
structure FontMetrics where
  ascender : Int := 0
  descender : Int := 0
  contains : Nat → Bool := fun _ => false

inductive LayoutError
  | bidiFailure
  | nonLinearScript
deriving DecidableEq

inductive Alignment
  | left
  | right
  | center
  | justifyLeft
  | justifyRight
deriving DecidableEq

/-- LayoutProperties_c. -/
structure LayoutProperties where
  ltr : Bool := true
  align : Alignment := .left
  indent : Int := 0
  hyphenate : Bool := false
  optimizeLinebreaks : Bool := false
  underlineFont : Option UnderlineMetrics := none
  links : List String := []

/-- TextLayout_c, the output of one layout call. -/
structure TextLayout where
  commands : List CommandData := []
  links : List LinkInformation := []
  firstBaseline : Int := 0
  height : Int := 0
  left : Int := 0
  right : Int := 0

/-- Shape_c: the column profile; `getLeft/getRight` are queried for a
    vertical range, `getLeft2/getRight2` give the bounding envelope. -/
structure Shape where
  getLeft : Int → Int → Int := fun _ _ => 0
  getRight : Int → Int → Int := fun _ _ => 0
  getLeft2 : Int → Int → Int := fun _ _ => 0
  getRight2 : Int → Int → Int := fun _ _ => 0

/-! LayoutDataView (the normalized view of the input). -/

/-- LayoutDataView::isBidiCharacter. -/
def isBidiCharacter (c : Nat) : Bool :=
  c == 0x202A || c == 0x202B || c == 0x202C

/-- Construction loop of the LayoutDataView constructor: copy the
    codepoints, skipping bidi control characters, and record for each
    retained codepoint its original index.  `i` is the index of the first
    element of the remaining input.  Returns `(txt32, idx)`. -/
def viewBuild : Nat → List Nat → List Nat × List Nat
  | _, [] => ([], [])
  | i, c :: cs =>
    let r := viewBuild (i + 1) cs
    if isBidiCharacter c then r else (c :: r.1, i :: r.2)

/-- The view handed to the later passes: normalized text plus accessors.
    `att`, `hasatt` and `emb` already compose the original-attribute lookup
    with the index array `idx` (LayoutDataView::att/hasatt/emb). -/
structure ViewData where
  txt : List Nat := []
  att : Nat → Attr := fun _ => {}
  hasatt : Nat → Bool := fun _ => true
  emb : Nat → Nat := fun _ => 0
  lnb : List Nat := []

/-! Line-break and hyphenation analysis (getLinebreaks / getHyphens). -/

/-- Pads/truncates an analyzer result to the exact number of entries the
    C++ code's output buffer holds (the real analyzers write exactly `n`
    entries; padding is only a totalization device). -/
def padListWith (l : List Nat) (n : Nat) (d : Nat) : List Nat :=
  l.take n ++ List.replicate (n - l.length) d

/-- Writes `vals` into the array `arr` starting at index `start`
    (the effect of an analyzer writing into `lnb() + start`). -/
def writeSeg (arr : List Nat) (start : Nat) (vals : List Nat) : List Nat :=
  arr.take start ++ vals ++ arr.drop (start + vals.length)

/-- The `while` loop that extends a same-language section:
    `while (i < size && hasatt(i) && att(i).lang == curLang) i++`.
    Returns the number of positions accepted starting at `i`; the final
    index is `i +` the result.  The fuel is instantiated with `size + 1`,
    which the loop cannot exhaust since `i` grows towards `size`. -/
def findSectionSteps (size : Nat) (hasatt : Nat → Bool) (lang : Nat → String)
    (curLang : String) : Nat → Nat → Nat
  | 0, _ => 0
  | fuel + 1, i =>
    if i < size ∧ hasatt i ∧ lang i = curLang then
      1 + findSectionSteps size hasatt lang curLang fuel (i + 1)
    else 0

/-- getLinebreaks: walk maximal same-language segments and run the
    line-break analyzer on each with one look-ahead codepoint (so that the
    forced break the analyzer writes at its window end is overwritten by
    the next call).  `fn` is `set_linebreaks_utf32`. -/
def getLinebreaksLoop (fn : List Nat → String → List Nat) (txt : List Nat)
    (attLang : Nat → String) : Nat → Nat → List Nat → List Nat
  | 0, _, lnb => lnb
  | fuel + 1, runstart, lnb =>
    if runstart < txt.length then
      let steps := findSectionSteps txt.length (fun _ => true) attLang
        (attLang runstart) (txt.length + 1) (runstart + 1)
      let runpos := runstart + 1 + steps
      let len := runpos - runstart + (if runpos < txt.length then 1 else 0)
      let vals := padListWith (fn ((txt.drop runstart).take len) (attLang runstart))
        len LINEBREAK_MUSTBREAK
      getLinebreaksLoop fn txt attLang fuel runpos (writeSeg lnb runstart vals)
    else lnb

/-- getLinebreaks over the whole view; the linebreak array starts zeroed
    (`linebreaks.resize(idx.size())` in the view constructor). -/
def getLinebreaks (fn : List Nat → String → List Nat) (txt : List Nat)
    (attLang : Nat → String) : List Nat :=
  getLinebreaksLoop fn txt attLang (txt.length + 1) 0
    (List.replicate txt.length 0)

/-- One answer of HyphenDict::hyphenate for one position: the hyphen count
    and the length of the replacement string. -/
structure HyphResult where
  hyphens : Nat := 0
  repLen : Nat := 0
deriving DecidableEq, Inhabited

/-- A hyphenation dictionary: word → per-position hyphenate results. -/
abbrev HyphDict := List Nat → List HyphResult

/-- The C++ expression `view.txt().find_first_of(U+00AD, start)`:
    index of the first soft hyphen at or after `start` in the WHOLE
    normalized string, if any (npos is modelled as `none`). -/
def findSoftHyphen (txt : List Nat) (start : Nat) : Option Nat :=
  (List.findIdx? (fun c => c = 0xAD) (txt.drop start)).map (· + start)

/-- The marks produced for one detected word: the C++ loop
    `for l in [0, j-wordstart+1)` setting
    `hyphens[sectionstart+wordstart+l+1]` when the hyphen count is odd and
    the replacement is empty.  Note that the substring fed to the
    dictionary is `view.txt().substr(wordstart, j-wordstart)`: `wordstart`
    is used as an ABSOLUTE index into the whole string although it is
    relative to the section (this is what the source does). -/
def hyphenMarks (dict : HyphDict) (txt : List Nat) (sectionstart ws j : Nat) :
    List Nat :=
  let word := (txt.drop ws).take (j - ws)
  let hr := dict word
  (List.range (j - ws + 1)).filterMap fun l =>
    if (hr.getD l default).hyphens % 2 = 1 ∧ (hr.getD l default).repLen = 0 then
      some (sectionstart + ws + l + 1)
    else none

/-- The word-detection loop of getHyphens: `for j in [1, breaks.size())`,
    a word ends at `j` when `breaks[j-1] == WORDBREAK_BREAK`; a word is
    hyphenated only when `find_first_of(U+00AD, wordstart) >= j`. -/
def processWords (txt : List Nat) (sectionstart : Nat) (dict : HyphDict)
    (breaks : List Nat) (hyp0 : List Nat) : List Nat :=
  ((List.range' 1 (breaks.length - 1)).foldl (fun st j =>
    if breaks.getD (j - 1) WORDBREAK_NOBREAK = WORDBREAK_BREAK then
      let st2 :=
        if (match findSoftHyphen txt st.1 with
            | none => true
            | some p => decide (j ≤ p)) then
          (st.1, st.2 ++ hyphenMarks dict txt sectionstart st.1 j)
        else st
      (j, st2.2)
    else st) ((0, hyp0) : Nat × List Nat)).2

/-- getHyphens: walk sections that have a nonempty language attribute.
    NOTE (faithful to the source): the section language `curLang` is read
    from `view.att(0).lang`, i.e. from position 0 of the view, not from
    `sectionstart`; both the dictionary lookup and the extension of the
    section use that language.  The section is analysed with one
    look-ahead codepoint (`c_str()` guarantees a NUL terminator, hence the
    `txt ++ [0]`).  The result is the list of positions set by `sethyp`. -/
def getHyphensLoop (gd : String → Option HyphDict)
    (wb : List Nat → String → List Nat) (txt : List Nat)
    (hasatt : Nat → Bool) (attLang : Nat → String) :
    Nat → Nat → List Nat → List Nat
  | 0, _, hyp => hyp
  | fuel + 1, sectionstart, hyp =>
    if sectionstart < txt.length then
      if hasatt sectionstart ∧ attLang sectionstart ≠ "" then
        let curLang := attLang 0
        let i := sectionstart + 1 + findSectionSteps txt.length hasatt attLang
          curLang (txt.length + 1) (sectionstart + 1)
        let hyp2 :=
          match gd curLang with
          | none => hyp
          | some dict =>
            let len := i - sectionstart + 1
            let slice := ((txt ++ [0]).drop sectionstart).take len
            let breaks := padListWith (wb slice curLang) len WORDBREAK_NOBREAK
              ++ [WORDBREAK_BREAK]
            processWords txt sectionstart dict breaks hyp
        getHyphensLoop gd wb txt hasatt attLang fuel i hyp2
      else getHyphensLoop gd wb txt hasatt attLang fuel (sectionstart + 1) hyp
    else hyp

def getHyphens (gd : String → Option HyphDict)
    (wb : List Nat → String → List Nat) (txt : List Nat)
    (hasatt : Nat → Bool) (attLang : Nat → String) : List Nat :=
  getHyphensLoop gd wb txt hasatt attLang (txt.length + 1) 0 []

/-- Modelled from the spec (sections 4.3 and 9.(i)) for comparison with
    `getHyphensLoop`: identical except that the section language is the
    language of the attribute AT THE SECTION START, i.e.
    `curLang = view.att(sectionstart).lang`, as the spec prescribes. -/
def getHyphensSpecLoop (gd : String → Option HyphDict)
    (wb : List Nat → String → List Nat) (txt : List Nat)
    (hasatt : Nat → Bool) (attLang : Nat → String) :
    Nat → Nat → List Nat → List Nat
  | 0, _, hyp => hyp
  | fuel + 1, sectionstart, hyp =>
    if sectionstart < txt.length then
      if hasatt sectionstart ∧ attLang sectionstart ≠ "" then
        let curLang := attLang sectionstart
        let i := sectionstart + 1 + findSectionSteps txt.length hasatt attLang
          curLang (txt.length + 1) (sectionstart + 1)
        let hyp2 :=
          match gd curLang with
          | none => hyp
          | some dict =>
            let len := i - sectionstart + 1
            let slice := ((txt ++ [0]).drop sectionstart).take len
            let breaks := padListWith (wb slice curLang) len WORDBREAK_NOBREAK
              ++ [WORDBREAK_BREAK]
            processWords txt sectionstart dict breaks hyp
        getHyphensSpecLoop gd wb txt hasatt attLang fuel i hyp2
      else getHyphensSpecLoop gd wb txt hasatt attLang fuel (sectionstart + 1) hyp
    else hyp

def getHyphensSpec (gd : String → Option HyphDict)
    (wb : List Nat → String → List Nat) (txt : List Nat)
    (hasatt : Nat → Bool) (attLang : Nat → String) : List Nat :=
  getHyphensSpecLoop gd wb txt hasatt attLang (txt.length + 1) 0 []

/-! Run creation (addUnderline / createRun). -/

/-- The shaper collaborator: font id, buffer codepoints, RTL direction,
    language string → glyph infos and positions.  Script and language
    configuration of the buffer are both determined by the language
    string, so the language is the only extra parameter. -/
abbrev ShaperFn := Nat → List Nat → Bool → String → List GlyphData

/-- Ascender of the (optional) run font; the C++ code dereferences the
    font pointer, which is only null for inlay runs where it is unused. -/
def fontAscender (env : Nat → FontMetrics) : Option Nat → Int
  | some f => (env f).ascender
  | none => 0

def fontDescender (env : Nat → FontMetrics) : Option Nat → Int
  | some f => (env f).descender
  | none => 0

/-- The shadow rectangles emitted by addUnderline, at layers
    `|shadows| - j` for `j = 0, …, |shadows| - 1`. -/
def underlineShadowCmds (shadows : List Shadow) (gx gy gw gh : Int) :
    List (Nat × CommandData) :=
  (List.range shadows.length).map fun j =>
    let s := shadows.getD j default
    (shadows.length - j, mkRectCmd (gx + s.dx) (gy + s.dy) gw gh s.c s.blurr)

/-- addUnderline: appends underline commands (shadows first, then the
    base rectangle at layer 0) when the attribute has FL_UNDERLINE. -/
def addUnderline (cmds : List (Nat × CommandData)) (gx gw : Int)
    (prop : LayoutProperties) (a : Attr) : List (Nat × CommandData) :=
  if a.flags &&& FL_UNDERLINE ≠ 0 then
    let gy : Int :=
      match prop.underlineFont with
      | some uf => -(uf.underlinePosition + cdiv uf.underlineThickness 2)
      | none => -(a.font.underlinePosition + cdiv a.font.underlineThickness 2)
    let gh : Int :=
      match prop.underlineFont with
      | some uf => max 64 uf.underlineThickness
      | none => max 64 a.font.underlineThickness
    cmds ++ underlineShadowCmds a.shadows gx gy gw gh
      ++ [(0, mkRectCmd gx gy gw gh a.c 0)]
  else cmds

/-- The shadow copies of one glyph.  Faithful to the source: the NUMBER of
    shadows (and the layer index) comes from the attribute at `runstart`,
    while the shadow DATA is read from the cluster's attribute `a`
    (lines 520–523 of layoutParagraph.cpp). -/
def glyphShadowCmds (n : Nat) (shadows : List Shadow) (font : Option Nat)
    (gi : Nat) (gx gy : Int) : List (Nat × CommandData) :=
  (List.range n).map fun j =>
    let s := shadows.getD j default
    (n - j, mkGlyphCmd font gi (gx + s.dx) (gy + s.dy) s.c s.blurr)

/-- The glyph content of an UNSHAPED HarfBuzz buffer (used when the run
    has no font): one entry per added codepoint, clusters set to
    `offset + index`, positions zeroed. -/
def unshapedGlyphs (slice : List Nat) (offset : Nat) : List GlyphData :=
  (List.range slice.length).map fun k =>
    { codepoint := slice.getD k 0, cluster := offset + k }

/-- The glyphs of a run: buffer content as in createRun (the run slice,
    or a single U+2010 / U+002D for soft-hyphen runs), shaped when a font
    is available. -/
def runGlyphs (V : ViewData) (env : Nat → FontMetrics) (shaper : ShaperFn)
    (spos runstart : Nat) (font : Option Nat) : List GlyphData :=
  let isShy := V.txt.getD runstart 0 = 0xAD
  let slice :=
    if ¬isShy then (V.txt.drop runstart).take (spos - runstart)
    else if (match font with
             | some f => (env f).contains 0x2010
             | none => false) then [0x2010] else [0x2D]
  let offset := if ¬isShy then runstart else 0
  match font with
  | some f => shaper f slice (V.emb runstart % 2 ≠ 0) (V.att runstart).lang
  | none => unshapedGlyphs slice offset

/-- State of the first pass over the glyphs (absolute-offset rewriting
    and link tracking). -/
structure Pass1State where
  dx : Int := 0
  curLink : Nat := 0
  linkStart : Int := 0
  linkRect : Rectangle := {}
  links : List LinkInformation := []
  xOffsets : List Int := []

/-- One step of the first glyph pass (lines 432–475): skips inlay
    clusters, rewrites x_offset to an absolute intra-run position,
    accumulates the advance and maintains the open link rectangle. -/
def pass1Step (V : ViewData) (prop : LayoutProperties) (asc desc : Int)
    (st : Pass1State) (g : GlyphData) : Pass1State :=
  let a := V.att g.cluster
  if a.inlay.isSome then { st with xOffsets := st.xOffsets ++ [g.xOffset] }
  else
    let linkStart :=
      if (st.curLink = 0 ∧ a.link ≠ 0) ∨ st.curLink ≠ a.link then st.dx
      else st.linkStart
    let xabs := g.xOffset + st.dx
    let dx := st.dx + g.xAdvance
    if a.link ≠ 0 then
      if st.curLink ≠ 0 ∧ st.curLink ≠ a.link then
        { dx := dx
          curLink := a.link
          linkStart := linkStart
          linkRect := { x := linkStart, y := -asc, w := dx - linkStart, h := asc - desc }
          links := st.links ++ [{ url := prop.links.getD (st.curLink - 1) "", areas := [st.linkRect] }]
          xOffsets := st.xOffsets ++ [xabs] }
      else if st.curLink = 0 then
        { st with
          dx := dx
          curLink := a.link
          linkStart := linkStart
          linkRect := { x := linkStart, y := -asc, w := dx - linkStart, h := asc - desc }
          xOffsets := st.xOffsets ++ [xabs] }
      else
        { st with
          dx := dx
          linkStart := linkStart
          linkRect := { st.linkRect with w := dx - linkStart }
          xOffsets := st.xOffsets ++ [xabs] }
    else
      { st with dx := dx, linkStart := linkStart, xOffsets := st.xOffsets ++ [xabs] }

/-- State of the second (output) pass. -/
structure Pass2State where
  dx : Int := 0
  cmds : List (Nat × CommandData) := []

/-- One step of the output pass for glyph index `j` (lines 478–535).
    Inlay clusters copy the inlay's commands shifted into place and
    advance by the inlay's width; normal clusters emit shadow copies, the
    base glyph at layer 0 and an optional underline, and FAIL with
    NonLinearScript when the shaper reported a non-zero y_advance
    (`run.dy` stays 0 throughout, as in the source). -/
def pass2Step (V : ViewData) (prop : LayoutProperties) (runstart : Nat)
    (asc : Int) (font : Option Nat) (glyphs : List GlyphData)
    (xOffsets : List Int) (st : Pass2State) (j : Nat) :
    Except LayoutError Pass2State :=
  let g := glyphs.getD j default
  let a := V.att g.cluster
  match a.inlay with
  | some inl =>
    let shifted := inl.data.map fun c => { c with y := c.y - (asc - 1), x := c.x + st.dx }
    let cmds := st.cmds ++ shifted.map (fun c => ((0 : Nat), c))
    let cmds := addUnderline cmds st.dx inl.right prop a
    .ok { dx := st.dx + inl.right, cmds := cmds }
  | none =>
    let gi := g.codepoint
    let gx := xOffsets.getD j 0
    let gy := 0 - g.yOffset - (V.att runstart).baseline_shift
    let cmds := st.cmds ++ glyphShadowCmds (V.att runstart).shadows.length a.shadows font gi gx gy
      ++ [(0, mkGlyphCmd font gi gx gy a.c 0)]
    let cmds := addUnderline cmds gx (g.xAdvance + 64) prop a
    if g.yAdvance ≠ 0 then .error .nonLinearScript
    else .ok { st with cmds := cmds }

/-- The iteration order of the output pass: logical for even embedding
    levels, reversed for odd ones (`j = glyph_count-1-jj`). -/
def pass2Order (count : Nat) (rtl : Bool) : List Nat :=
  (List.range count).map fun jj => if rtl then count - 1 - jj else jj

/-- The output pass as a fold over the iteration order, short-circuiting
    on the NonLinearScript exception. -/
def pass2Run (V : ViewData) (prop : LayoutProperties) (runstart : Nat)
    (asc : Int) (font : Option Nat) (glyphs : List GlyphData)
    (xOffsets : List Int) : List Nat → Pass2State → Except LayoutError Pass2State
  | [], st => .ok st
  | j :: rest, st =>
    match pass2Step V prop runstart asc font glyphs xOffsets st j with
    | .error e => .error e
    | .ok st2 => pass2Run V prop runstart asc font glyphs xOffsets rest st2

/-- The ascender/descender of the run (lines 401–412): for an inline
    object both depend on the object's height, otherwise on the font
    metrics, in both cases shifted by the baseline shift. -/
def runAscDesc (V : ViewData) (env : Nat → FontMetrics) (runstart : Nat)
    (font : Option Nat) : Int × Int :=
  match (V.att runstart).inlay with
  | some inl => (inl.height + (V.att runstart).baseline_shift,
                 inl.height - (inl.height + (V.att runstart).baseline_shift))
  | none => (fontAscender env font + (V.att runstart).baseline_shift,
             fontDescender env font + (V.att runstart).baseline_shift)

/-- The first glyph pass of createRun as a fold. -/
def runPass1 (V : ViewData) (env : Nat → FontMetrics) (shaper : ShaperFn)
    (spos runstart : Nat) (prop : LayoutProperties) (font : Option Nat) :
    Pass1State :=
  (runGlyphs V env shaper spos runstart font).foldl
    (pass1Step V prop (runAscDesc V env runstart font).1
      (runAscDesc V env runstart font).2) {}

/-- The second (output) glyph pass of createRun. -/
def runPass2 (V : ViewData) (env : Nat → FontMetrics) (shaper : ShaperFn)
    (spos runstart : Nat) (prop : LayoutProperties) (font : Option Nat) :
    Except LayoutError Pass2State :=
  pass2Run V prop runstart (runAscDesc V env runstart font).1 font
    (runGlyphs V env shaper spos runstart font)
    (runPass1 V env shaper spos runstart prop font).xOffsets
    (pass2Order (runGlyphs V env shaper spos runstart font).length
      (V.emb runstart % 2 ≠ 0))
    { dx := (runPass1 V env shaper spos runstart prop font).dx }

/-- createRun: shape the view slice `[runstart, spos)` and produce the
    finished run. -/
def createRun (V : ViewData) (env : Nat → FontMetrics) (shaper : ShaperFn)
    (spos runstart : Nat) (prop : LayoutProperties) (font : Option Nat) :
    Except LayoutError RunInfo :=
  match runPass2 V env shaper spos runstart prop font with
  | .error e => .error e
  | .ok p2 =>
    let p1 := runPass1 V env shaper spos runstart prop font
    let links :=
      if p1.curLink ≠ 0 then
        p1.links ++ [{ url := prop.links.getD (p1.curLink - 1) "", areas := [p1.linkRect] }]
      else p1.links
    .ok { run := p2.cmds, dx := p2.dx, dy := 0, embeddingLevel := V.emb runstart,
          linebreak := V.lnb.getD (spos - 1) LINEBREAK_NOBREAK, font := font,
          space := V.txt.getD (spos - 1) 0 = 32 ∨ V.txt.getD (spos - 1) 0 = 10,
          shy := V.txt.getD runstart 0 = 0xAD,
          ascender := (runAscDesc V env runstart font).1,
          descender := (runAscDesc V env runstart font).2, links := links }

/-! Run segmentation (createTextRuns). -/

/-- The run-extension condition of createTextRuns (lines 576–592), MINUS
    the leading `spos < view.size()` bound, which the caller checks. -/
def runExtendsBody (V : ViewData) (hyp : Nat → Bool) (runstart : Nat)
    (font : Option Nat) (spos : Nat) : Bool :=
  V.emb runstart = V.emb spos ∧
  (V.att runstart).lang = (V.att spos).lang ∧
  font = (V.att spos).font.get (V.txt.getD spos 0) ∧
  (V.att runstart).baseline_shift = (V.att spos).baseline_shift ∧
  (V.att spos).inlay.isNone ∧
  (V.att (spos - 1)).inlay.isNone ∧
  (V.lnb.getD (spos - 1) 0 = LINEBREAK_NOBREAK ∨
   V.lnb.getD (spos - 1) 0 = LINEBREAK_INSIDEACHAR) ∧
  V.txt.getD spos 0 ≠ 32 ∧ V.txt.getD (spos - 1) 0 ≠ 32 ∧
  V.txt.getD spos 0 ≠ 10 ∧ V.txt.getD (spos - 1) 0 ≠ 10 ∧
  V.txt.getD spos 0 ≠ 0xAD ∧
  ¬hyp spos

/-- The `while` loop extending a run: returns the number of accepted
    steps; the end of the run is `spos +` result. -/
def findRunSteps (V : ViewData) (hyp : Nat → Bool) (runstart : Nat)
    (font : Option Nat) : Nat → Nat → Nat
  | 0, _ => 0
  | fuel + 1, spos =>
    if spos < V.txt.length ∧ runExtendsBody V hyp runstart font spos then
      1 + findRunSteps V hyp runstart font fuel (spos + 1)
    else 0

/-- The one-character view built for a synthesized soft-hyphen run
    (lines 614–622): text U+00AD, the attribute and embedding level of
    `runstart`, linebreak ALLOWBREAK. -/
def shyView (V : ViewData) (runstart : Nat) : ViewData :=
  { txt := [0xAD]
    att := fun _ => V.att runstart
    hasatt := fun _ => true
    emb := fun _ => V.emb runstart
    lnb := [LINEBREAK_ALLOWBREAK] }

/-- The main loop of createTextRuns: segment the view into runs, create
    each via createRun, and after a run ending at an automatic hyphenation
    position insert a synthesized soft-hyphen run. -/
def createTextRunsLoop (V : ViewData) (hyp : Nat → Bool)
    (env : Nat → FontMetrics) (shaper : ShaperFn) (prop : LayoutProperties) :
    Nat → Nat → List RunInfo → Except LayoutError (List RunInfo)
  | 0, _, acc => .ok acc
  | fuel + 1, runstart, acc =>
    if runstart < V.txt.length then
      let font := (V.att runstart).font.get (V.txt.getD runstart 0)
      let spos := runstart + 1 + findRunSteps V hyp runstart font (V.txt.length + 1) (runstart + 1)
      match createRun V env shaper spos runstart prop font with
      | .error e => .error e
      | .ok r =>
        if hyp spos then
          match createRun (shyView V runstart) env shaper 1 0 prop font with
          | .error e => .error e
          | .ok r2 => createTextRunsLoop V hyp env shaper prop fuel spos (acc ++ [r, r2])
        else createTextRunsLoop V hyp env shaper prop fuel spos (acc ++ [r])
    else .ok acc

def createTextRuns (V : ViewData) (hyp : Nat → Bool) (env : Nat → FontMetrics)
    (shaper : ShaperFn) (prop : LayoutProperties) : Except LayoutError (List RunInfo) :=
  createTextRunsLoop V hyp env shaper prop (V.txt.length + 1) 0 []

/-! Line assembly (mergeLinks / addLine). -/

/-- mergeLinks: merge link boxes into the layout's link list with
    URL-keyed coalescing, shifting each rectangle by `(dx, dy)`. -/
def mergeLinks (txtLinks : List LinkInformation)
    (links : List LinkInformation) (dx dy : Int) : List LinkInformation :=
  links.foldl (fun acc l =>
    let shifted := l.areas.map fun r => { r with x := r.x + dx, y := r.y + dy }
    match acc.findIdx? (fun l2 => l.url = l2.url) with
    | some k => acc.set k { acc.getD k default with
                            areas := (acc.getD k default).areas ++ shifted }
    | none => acc ++ [{ url := l.url, areas := shifted }]) txtLinks

/-- One pass of the BiDi L2 reversal (lines 694–708 for a fixed level
    threshold): reverse every maximal contiguous block of indices whose
    predicate holds.  `seg` carries the current block already reversed. -/
def revSegsCore (p : Nat → Bool) : List Nat → List Nat → List Nat
  | [], seg => seg
  | x :: xs, seg =>
    if p x then revSegsCore p xs (x :: seg)
    else seg ++ x :: revSegsCore p xs []

def revSegs (p : Nat → Bool) (l : List Nat) : List Nat := revSegsCore p l []

/-- The reversal loop `for (int i = max_level-1; i >= 0; i--)`: thresholds
    are applied from `n - 1` down to 0, each pass reversing the blocks
    with embedding level strictly above the threshold. -/
def reorderLoop (lv : Nat → Nat) : Nat → List Nat → List Nat
  | 0, ro => ro
  | n + 1, ro => reorderLoop lv n (revSegs (fun x => n < lv x) ro)

/-- LF flags of addLine, kept as booleans (the C++ code packs them into a
    bit mask). -/
structure LineFlags where
  first : Bool := false
  last : Bool := false
  smallSpace : Bool := false

/-- The alignment switch of addLine (lines 719–760): starting x position
    and per-space widening.  `1.0 * spaceLeft / numSpace` is modelled as
    rational division. -/
def alignParams (prop : LayoutProperties) (flags : LineFlags) (numSpace : Nat)
    (spaceLeft : Int) (left : Int) : Int × ℚ :=
  match prop.align with
  | .left => (left + (if flags.first then prop.indent else 0), 0)
  | .right => (left + spaceLeft, 0)
  | .center => (left + cdiv spaceLeft 2, 0)
  | .justifyLeft =>
    (left + (if flags.first then prop.indent else 0),
     if 0 < numSpace ∧ ¬flags.last then (spaceLeft : ℚ) / (numSpace : ℚ) else 0)
  | .justifyRight =>
    if 0 < numSpace ∧ ¬flags.last then (left, (spaceLeft : ℚ) / (numSpace : ℚ))
    else (left + spaceLeft, 0)

/-- State of the placement walk over the visually ordered runs. -/
structure WalkState where
  xpos2 : Int := 0
  numSpace : Nat := 0
  runs : List RunInfo := []
  layoutLinks : List LinkInformation := []

/-- One step of the placement walk (lines 766–816): skip soft-hyphen runs
    unless line final; shift the commands of non-space runs (only RECT
    commands of space runs, widened by the space adder); widen the first
    link box of a space run; merge links; count spaces; advance.  The
    `double` additions into `int` fields truncate toward zero. -/
def walkStep (flags : LineFlags) (spaceadder : ℚ) (ypos : Int) (spos : Nat)
    (st : WalkState) (ri : Nat) : WalkState :=
  let r := st.runs.getD ri default
  if ¬r.shy ∨ ri = spos - 1 then
    let S : ℚ := (st.xpos2 : ℚ) + spaceadder * (st.numSpace : ℚ)
    let r2 :=
      if ¬r.space then
        { r with run := r.run.map fun c =>
            (c.1, { c.2 with x := dtrunc ((c.2.x : ℚ) + S), y := c.2.y + ypos }) }
      else
        let r1 :=
          { r with run := r.run.map fun (c : Nat × CommandData) =>
              if c.2.command = CmdKind.rect then
                (c.1, { c.2 with
                        w := dtrunc ((c.2.w : ℚ) + spaceadder)
                        x := dtrunc ((c.2.x : ℚ) + S)
                        y := c.2.y + ypos })
              else c }
        match r1.links with
        | l0 :: ls =>
          match l0.areas with
          | a0 :: rest =>
            { r1 with links := { l0 with
                areas := { a0 with w := dtrunc ((a0.w : ℚ) + spaceadder) } :: rest } :: ls }
          | [] => r1
        | [] => r1
    let layoutLinks := mergeLinks st.layoutLinks r2.links (dtrunc S) ypos
    let numSpace := st.numSpace + (if r.space then 1 else 0)
    let xpos2 := st.xpos2 +
      (if ¬r.space then r.dx
       else if flags.smallSpace then cdiv (9 * r.dx) 10
       else r.dx)
    { xpos2 := xpos2, numSpace := numSpace, runs := st.runs.set ri r2,
      layoutLinks := layoutLinks }
  else st

/-- One layer pass of the output loop (lines 829–857): iterate the runs
    of the line in LOGICAL order, emitting the commands of the target
    layer (only RECT commands for space runs). -/
def emitLayerPass (runs : List RunInfo) (spos target : Nat) :
    List Nat → List (Nat × CommandData)
  | [] => []
  | i :: rest =>
    let r := runs.getD i default
    (if ¬r.shy ∨ i = spos - 1 then
       if ¬r.space then r.run.filter (fun c => c.1 == target)
       else r.run.filter (fun c => c.1 == target && decide (c.2.command = CmdKind.rect))
     else []) ++ emitLayerPass runs spos target rest

/-- The layer loop of addLine (lines 826–858), reindexed by the target
    layer: the C++ loop runs `layer = 0 … maxlayer-1` emitting target
    `maxlayer-layer-1`; here `emitLayersDown n` emits targets
    `n-1, n-2, …, 0`, which is the same sequence. -/
def emitLayersDown (runs : List RunInfo) (spos : Nat) (idxs : List Nat) :
    Nat → List (Nat × CommandData)
  | 0 => []
  | t + 1 => emitLayerPass runs spos t idxs ++ emitLayersDown runs spos idxs t

/-- addLine: assemble the runs `[runstart, spos)` into the layout at
    baseline `ypos`.  The C++ function mutates the commands of the placed
    runs in the caller's vector; since no caller reuses a placed run, the
    mutation is modelled locally and only the layout is returned. -/
def addLine (runs0 : List RunInfo) (l : TextLayout) (runstart spos : Nat)
    (ypos curWidth : Int) (left right : Int) (flags : LineFlags)
    (numSpace : Nat) (prop : LayoutProperties) : TextLayout :=
  let runorder0 := List.range' runstart (spos - runstart)
  let maxLevel := runorder0.foldl
    (fun m ri => max m (runs0.getD ri default).embeddingLevel) 0
  let runorder := reorderLoop
    (fun ri => (runs0.getD ri default).embeddingLevel) maxLevel runorder0
  let spaceLeft := right - left - curWidth
  let xs := alignParams prop flags numSpace spaceLeft left
  let st := runorder.foldl (walkStep flags xs.2 ypos spos)
    { xpos2 := xs.1, numSpace := 0, runs := runs0, layoutLinks := l.links }
  let maxlayer := runorder.foldl
    (fun m ri => (st.runs.getD ri default).run.foldl (fun m2 c => max m2 (c.1 + 1)) m) 0
  let emitted := emitLayersDown st.runs spos runorder0 maxlayer
  { l with
    commands := l.commands ++ emitted.map (fun c => c.2)
    links := st.layoutLinks }

/-! The greedy line breaker (breakLines). -/

/-- Accumulator of one break-group probe (lines 902–941). -/
structure GroupAcc where
  asc : Int := 0
  desc : Int := 0
  width : Int := 0
  nspace : Nat := 0
deriving DecidableEq, Inhabited

/-- The break condition at run `newspos` (lines 925–934): either the next
    run is a space after which a break is allowed, or the current run is a
    non-space after which a break is allowed. -/
def groupBreakCond (runs : List RunInfo) (newspos : Nat) : Bool :=
  let r := runs.getD newspos default
  let nxt := runs.getD (newspos + 1) default
  (decide (newspos + 1 < runs.length) && nxt.space &&
     (decide (nxt.linebreak = LINEBREAK_ALLOWBREAK) || decide (nxt.linebreak = LINEBREAK_MUSTBREAK)))
  || (!r.space &&
     (decide (r.linebreak = LINEBREAK_ALLOWBREAK) || decide (r.linebreak = LINEBREAK_MUSTBREAK)))

/-- The inner-most `while` of breakLines: starting at run `newspos`,
    accumulate runs until a possible break position (or the end of the
    run list).  Returns the EXIT value of `newspos` (before the `++` that
    follows the loop) together with the accumulated line metrics. -/
def accumGroup (runs : List RunInfo) : Nat → Nat → GroupAcc → Nat × GroupAcc
  | 0, newspos, acc => (newspos, acc)
  | fuel + 1, newspos, acc =>
    if h : newspos < runs.length then
      let r := runs.get ⟨newspos, h⟩
      let acc2 : GroupAcc :=
        { asc := max acc.asc r.ascender
          desc := min acc.desc r.descender
          width := acc.width + r.dx
          nspace := acc.nspace + (if r.space then 1 else 0) }
      if groupBreakCond runs newspos then (newspos, acc2)
      else accumGroup runs fuel (newspos + 1) acc2
    else (newspos, acc)

/-- State of one line of the greedy breaker. -/
structure LineState where
  curAscend : Int := 0
  curDescend : Int := 0
  curWidth : Int := 0
  spos : Nat := 0
  numSpace : Nat := 0
  forcebreak : Bool := false
deriving DecidableEq, Inhabited

/-- The break-group probe of one iteration of the middle `while` of
    breakLines: the candidate accumulation starting from the current line
    state (the C++ `newAscend/newDescend/newWidth/newspos/newSpace`
    block plus the inner-most loop). -/
def groupOf (runs : List RunInfo) (st : LineState) : Nat × GroupAcc :=
  accumGroup runs (runs.length + 1) st.spos
    { asc := st.curAscend, desc := st.curDescend, width := st.curWidth, nspace := st.numSpace }

/-- The overrun test of breakLines (lines 952–955, second conjunct):
    with the candidate group accumulated, adding it would make the line
    wider than the column at the tentative vertical range. -/
def groupOverruns (shape : Shape) (runs : List RunInfo) (ypos : Int)
    (st : LineState) : Bool :=
  decide (shape.getLeft ypos (ypos + (groupOf runs st).2.asc - (groupOf runs st).2.desc)
      + (groupOf runs st).2.width >
    shape.getRight ypos (ypos + (groupOf runs st).2.asc - (groupOf runs st).2.desc))

/-- Taking over a committed break group (lines 961–971): the candidate
    metrics become the line metrics, with the advance of a soft hyphen
    that ended the PREVIOUS group removed from the width since it will not
    be rendered line-internally; `spos` moves past the group. -/
def commitState (runs : List RunInfo) (runstart : Nat) (st : LineState) : LineState :=
  let g := groupOf runs st
  let adjWidth :=
    if runstart < st.spos ∧ (runs.getD (st.spos - 1) default).shy then
      g.2.width - (runs.getD (st.spos - 1) default).dx
    else g.2.width
  { curAscend := g.2.asc, curDescend := g.2.desc, curWidth := adjWidth,
    spos := g.1 + 1, numSpace := g.2.nspace, forcebreak := false }

/-- The forced-break test after a commit (lines 974–976): the last
    committed run forces a break, or the next run is a space that does. -/
def forcedBreakAfter (runs : List RunInfo) (newspos : Nat) : Bool :=
  decide ((runs.getD (newspos - 1) default).linebreak = LINEBREAK_MUSTBREAK ∨
    (newspos < runs.length ∧ (runs.getD newspos default).space ∧
     (runs.getD newspos default).linebreak = LINEBREAK_MUSTBREAK))

/-- The middle `while` of breakLines (lines 898–981): repeatedly probe a
    break group; reject it if it overruns the column AND the line already
    holds at least one run (`spos > runstart`); otherwise commit it and
    stop on a forced break. -/
def lineAccum (shape : Shape) (runs : List RunInfo) (ypos : Int)
    (runstart : Nat) : Nat → LineState → LineState
  | 0, st => st
  | fuel + 1, st =>
    if st.spos < runs.length then
      if decide (runstart < st.spos) && groupOverruns shape runs ypos st then
        st
      else
        let st2 := commitState runs runstart st
        if forcedBreakAfter runs st2.spos then { st2 with forcebreak := true }
        else lineAccum shape runs ypos runstart fuel st2
    else st

/-- The `while (runstart < runs.size() && runs[runstart].space)` skip at
    the start of each greedy line: number of skipped space runs. -/
def skipSpaceSteps (runs : List RunInfo) : Nat → Nat → Nat
  | 0, _ => 0
  | fuel + 1, s =>
    if h : s < runs.length then
      if (runs.get ⟨s, h⟩).space then 1 + skipSpaceSteps runs fuel (s + 1) else 0
    else 0

def skipSpaceRuns (runs : List RunInfo) (s : Nat) : Nat :=
  s + skipSpaceSteps runs (runs.length + 1) s

/-- The line state at the start of one greedy line (lines 887–895): all
    metrics zero, except that a first non-centered line starts with the
    indent as width. -/
def initLineState (prop : LayoutProperties) (firstline : Bool) (runstart : Nat) :
    LineState :=
  { curWidth := if firstline ∧ prop.align ≠ Alignment.center then prop.indent else 0,
    spos := runstart }

/-- One greedy line, starting at `runstart` (already past leading
    spaces). -/
def greedyLineState (shape : Shape) (prop : LayoutProperties)
    (runs : List RunInfo) (ypos : Int) (runstart : Nat) (firstline : Bool) :
    LineState :=
  lineAccum shape runs ypos runstart (runs.length + 1)
    (initLineState prop firstline runstart)

/-- The outer loop of breakLines.  The fuel is instantiated with
    `runs.length + 1`; each iteration strictly increases `runstart`
    (theorem `claimC9` below), so the fuel is never exhausted. -/
def breakLinesLoop (shape : Shape) (prop : LayoutProperties)
    (runs : List RunInfo) : Nat → Nat → Int → TextLayout → Bool → Int × TextLayout
  | 0, _, ypos, l, _ => (ypos, l)
  | fuel + 1, runstart0, ypos, l, firstline =>
    if runstart0 < runs.length then
      let runstart := skipSpaceRuns runs runstart0
      let st := greedyLineState shape prop runs ypos runstart firstline
      let forcebreak := st.forcebreak ∨ st.spos = runs.length
      let flags : LineFlags := { first := firstline, last := forcebreak }
      let l2 := addLine runs l runstart st.spos (ypos + st.curAscend) st.curWidth
        (shape.getLeft ypos (ypos + st.curAscend - st.curDescend))
        (shape.getRight ypos (ypos + st.curAscend - st.curDescend))
        flags st.numSpace prop
      let l3 := if firstline then { l2 with firstBaseline := ypos + st.curAscend } else l2
      breakLinesLoop shape prop runs fuel st.spos (ypos + st.curAscend - st.curDescend) l3 false
    else (ypos, l)

def breakLines (shape : Shape) (prop : LayoutProperties) (runs : List RunInfo)
    (ystart : Int) : TextLayout :=
  let r := breakLinesLoop shape prop runs (runs.length + 1) 0 ystart {} true
  { r.2 with
    height := r.1
    left := shape.getLeft2 ystart r.1
    right := shape.getRight2 ystart r.1 }

/-! The optimizing line breaker (breakLinesOptimize). -/

/-- The lineinfo record of breakLinesOptimize.  `demerits` is a C++
    `float`, modelled as ℚ; the sentinel `std::numeric_limits<int>::max()`
    converts to the float 2^31, see `MAXF`. -/
structure LineInfo where
  fromIdx : Nat := 0
  demerits : ℚ := 0
  ascend : Int := 0
  descend : Int := 0
  width : Int := 0
  spaces : Nat := 0
  ypos : Int := 0
  forcebreak : Bool := false
  linetype : Int := 0
  hypen : Bool := false
  start : Bool := false
deriving DecidableEq, Inhabited

/-- The float value of `std::numeric_limits<int>::max()` (2147483647
    rounds to 2147483648.0 as a single-precision float). -/
def MAXF : ℚ := 2147483648

/-- The backward space-skip `while (runs[s2-1].space) s2--` (the C++ loop
    reads `runs[-1]` when it underruns; the default run is not a space, so
    the model stops at 0). -/
def skipSpaceRunsBwd (runs : List RunInfo) : Nat → Nat
  | 0 => 0
  | k + 1 => if (runs.getD k default).space then skipSpaceRunsBwd runs k else k + 1

/-- The accumulation over a candidate line `[start, i)` of the optimizer
    (lines 1055–1093): trim spaces at both edges, then accumulate
    ascend/descend/width/space count, counting each space run at 9/10 of
    its advance and recording stretch and full space width.  Returns
    `(s1, s2, acc)`. -/
def optAccum (prop : LayoutProperties) (runs : List RunInfo) (start i : Nat) :
    Nat × Nat × (Int × Int × Int × Nat × Int × Int) :=
  let w0 : Int := if start = 1 ∧ prop.align ≠ Alignment.center then prop.indent else 0
  let s1 := skipSpaceRuns runs (start - 1)
  let s2 := skipSpaceRunsBwd runs i
  let acc := (List.range' s1 (s2 - s1)).foldl
    (fun (a : Int × Int × Int × Nat × Int × Int) j =>
      let r := runs.getD j default
      if ¬r.shy ∨ j = s2 - 1 then
        (max a.1 r.ascender, min a.2.1 r.descender,
         a.2.2.1 + (if r.space then cdiv (9 * r.dx) 10 else r.dx),
         a.2.2.2.1 + (if r.space then 1 else 0),
         a.2.2.2.2.1 + (if r.space then cdiv r.dx 10 else 0),
         a.2.2.2.2.2 + (if r.space then r.dx else 0))
      else a)
    ((0 : Int), (0 : Int), w0, (0 : Nat), (0 : Int), (0 : Int))
  (s1, s2, acc)

/-- The width accumulated for a candidate line. -/
def optWidth (prop : LayoutProperties) (runs : List RunInfo) (start i : Nat) : Int :=
  (optAccum prop runs start i).2.2.2.2.1

/-- The column edges queried for a candidate line: left and right of the
    shape at the vertical range implied by the predecessor's ypos and the
    candidate's ascend/descend. -/
def optLR (shape : Shape) (prop : LayoutProperties) (runs : List RunInfo)
    (li : List LineInfo) (i start : Nat) : Int × Int :=
  let prev := li.getD (start - 1) default
  let t := optAccum prop runs start i
  (shape.getLeft prev.ypos (prev.ypos + t.2.2.1 - t.2.2.2.1),
   shape.getRight prev.ypos (prev.ypos + t.2.2.1 - t.2.2.2.1))

/-- One candidate line evaluation of the optimizer (lines 1049–1163 minus
    the `continue` on an unreachable predecessor, which the caller
    checks): `none` models the `break` on an overfull line; otherwise the
    new lineinfo record that would be stored at `li[i]`, with the path
    demerits of the predecessor already added. -/
def evalCandidate (shape : Shape) (prop : LayoutProperties)
    (runs : List RunInfo) (li : List LineInfo) (i start : Nat) :
    Option LineInfo :=
  let prev := li.getD (start - 1) default
  let t := optAccum prop runs start i
  let s2 := t.2.1
  let ascend := t.2.2.1
  let descend := t.2.2.2.1
  let width := t.2.2.2.2.1
  let spaces := t.2.2.2.2.2.1
  let spaceWidth := t.2.2.2.2.2.2.2
  let L := (optLR shape prop runs li i start).1
  let R := (optLR shape prop runs li i start).2
  if L + width > R then none
  else
    let fillin : ℚ := ((R - L - width : Int) : ℚ)
    let optimalFillin : ℚ := ((spaceWidth - width : Int) : ℚ)
    let fillinDifference : ℚ := qabs (fillin - optimalFillin)
    let badness : ℚ := 100 * qcube (fillinDifference / optimalFillin)
    let linetype : Int :=
      if badness ≥ 100 then 3
      else if badness ≥ 13 then (if fillin > optimalFillin then 2 else 0)
      else 1
    let d0 : ℚ := (10 + badness) * (10 + badness)
    let d1 := d0 + (if (runs.getD (s2 - 1) default).shy ∧ prev.hypen then 10000 else 0)
    let d2 := d1 + (if (linetype - prev.linetype).natAbs > 1 then 10000 else 0)
    let d3 := d2 + (if linetype ≠ prev.linetype then 5000 else 0)
    let atEnd := (runs.getD (i - 1) default).linebreak = LINEBREAK_MUSTBREAK ∨ i = runs.length
    let dF : ℚ := if atEnd then (if width > cdiv (R - L) 3 then 0 else 100000) else d3
    let force := atEnd
    some { fromIdx := start - 1, demerits := dF + prev.demerits,
           ascend := ascend, descend := descend, width := width, spaces := spaces,
           ypos := prev.ypos + ascend - descend, forcebreak := force,
           linetype := linetype, hypen := (runs.getD (s2 - 1) default).shy,
           start := false }

/-- The inner `for (size_t start = i; start > 0; start--)` of the
    optimizer: skips candidates whose predecessor carries the sentinel
    demerits, stops on the first overfull candidate, and keeps the
    best-demerits candidate. -/
def optInner (shape : Shape) (prop : LayoutProperties) (runs : List RunInfo)
    (li : List LineInfo) (i : Nat) : Nat → LineInfo → LineInfo
  | 0, best => best
  | s + 1, best =>
    let start := s + 1
    if (li.getD (start - 1) default).demerits = MAXF then
      optInner shape prop runs li i s best
    else
      match evalCandidate shape prop runs li i start with
      | none => best
      | some cand =>
        optInner shape prop runs li i s (if cand.demerits < best.demerits then cand else best)

/-- The break-position back-walk at a flush (lines 1170–1178):
    `while (!li[ii].start) { push ii; ii = li[ii].from; } push ii`.
    Stored `from` pointers strictly decrease, so fuel `i + 1` is never
    exhausted. -/
def backWalk (li : List LineInfo) : Nat → Nat → List Nat
  | 0, ii => [ii]
  | fuel + 1, ii =>
    if (li.getD ii default).start then [ii]
    else ii :: backWalk li fuel (li.getD ii default).fromIdx

/-- The flush-emission loop (lines 1180–1195), walking `ii` from
    `breaks.size()-1` down to 1: each line `[breaks[ii], breaks[ii-1])`
    (trimmed of edge spaces) is added via addLine with the SMALL_SPACE
    flag, and the ypos of the start entry is advanced. -/
def flushLoop (prop : LayoutProperties) (shape : Shape) (runs : List RunInfo)
    (breaks : List Nat) : Nat → List LineInfo → TextLayout → List LineInfo × TextLayout
  | 0, li, l => (li, l)
  | n + 1, li, l =>
    let ii := n + 1
    let cIdx := breaks.getD ii 0
    let bIdx := breaks.getD (ii - 1) 0
    let bb := li.getD bIdx default
    let cc := li.getD cIdx default
    let s1 := skipSpaceRuns runs cIdx
    let s2 := skipSpaceRunsBwd runs bIdx
    let flags : LineFlags :=
      { first := ii = breaks.length - 1, last := ii = 1, smallSpace := true }
    let l2 := addLine runs l s1 s2 (cc.ypos + bb.ascend) bb.width
      (shape.getLeft cc.ypos (cc.ypos + bb.ascend - bb.descend))
      (shape.getRight cc.ypos (cc.ypos + bb.ascend - bb.descend))
      flags bb.spaces prop
    let l3 := if ii = breaks.length - 1 then { l2 with firstBaseline := cc.ypos + bb.ascend } else l2
    let li2 := li.set cIdx { cc with ypos := cc.ypos + bb.ascend - bb.descend }
    flushLoop prop shape runs breaks n li2 l3

/-- The main loop of breakLinesOptimize.  The C++ `for` variable is
    `i = i1 + 1` (it is never 0: the loop starts at 1 and restarts at 1
    after a flush).  On a flush the first `i` runs are erased and the loop
    restarts; `li` keeps its size and entry 0 inherits the flushed ypos.
    Fuel: each step either increments `i` (bounded by the run count) or
    removes at least one run, so `(n+2)^2` steps suffice. -/
def optLoop (shape : Shape) (prop : LayoutProperties) :
    Nat → List RunInfo → List LineInfo → Nat → TextLayout → List LineInfo × TextLayout
  | 0, _, li, _, l => (li, l)
  | fuel + 1, runs, li, i1, l =>
    let i := i1 + 1
    if i < runs.length + 1 then
      let liA :=
        if (runs.getD (i - 1) default).linebreak = LINEBREAK_ALLOWBREAK ∨
           (runs.getD (i - 1) default).linebreak = LINEBREAK_MUSTBREAK then
          li.set i (optInner shape prop runs li i i { li.getD i default with demerits := MAXF })
        else li.set i { li.getD i default with demerits := MAXF }
      if (runs.getD (i - 1) default).linebreak = LINEBREAK_MUSTBREAK ∨ i = runs.length then
        let breaks := backWalk liA (i + 1) i
        let fl := flushLoop prop shape runs breaks (breaks.length - 1) liA l
        let liC := fl.1.set 0 { fl.1.getD 0 default with ypos := (fl.1.getD i default).ypos }
        optLoop shape prop fuel (runs.drop i) liC 0 fl.2
      else optLoop shape prop fuel runs liA (i1 + 1) l
    else (li, l)

def breakLinesOptimize (shape : Shape) (prop : LayoutProperties)
    (runs : List RunInfo) (ystart : Int) : TextLayout :=
  let li0 : List LineInfo := (List.replicate (runs.length + 1) default).set 0
    { fromIdx := 0, demerits := 0, ypos := ystart, start := true }
  let r := optLoop shape prop ((runs.length + 2) * (runs.length + 2)) runs li0 0 {}
  { r.2 with
    height := (r.1.getD 0 default).ypos
    left := shape.getLeft2 ystart (r.1.getD 0 default).ypos
    right := shape.getRight2 ystart (r.1.getD 0 default).ypos }

/-! The entry point (layoutParagraph). -/

/-- The bundle of external collaborators consumed by one layout call. -/
structure Collaborators where
  bidi : List Nat → Bool → Option (List Nat) := fun t _ => some (t.map fun _ => 0)
  linebreakFn : List Nat → String → List Nat := fun t _ => t.map fun _ => LINEBREAK_NOBREAK
  wordbreakFn : List Nat → String → List Nat := fun t _ => t.map fun _ => WORDBREAK_NOBREAK
  getDict : String → Option HyphDict := fun _ => none
  shaper : ShaperFn := fun _ t _ _ => unshapedGlyphs t 0
  fontEnv : Nat → FontMetrics := fun _ => {}

/-- layoutParagraph: resolve embedding levels (failure of the external
    resolver raises BidiFailure), build the view, run line-break and
    (optionally) hyphenation analysis, create the runs, and break them
    into lines with the configured breaker. -/
def layoutParagraph (C : Collaborators) (txt32 : List Nat)
    (attrGet : Nat → Attr) (attrHas : Nat → Bool) (shape : Shape)
    (prop : LayoutProperties) (ystart : Int) : Except LayoutError TextLayout :=
  match C.bidi txt32 prop.ltr with
  | none => .error .bidiFailure
  | some levels =>
    let vb := viewBuild 0 txt32
    let att : Nat → Attr := fun i => attrGet (vb.2.getD i 0)
    let hasatt : Nat → Bool := fun i => attrHas (vb.2.getD i 0)
    let emb : Nat → Nat := fun i => levels.getD (vb.2.getD i 0) 0
    let lnb := getLinebreaks C.linebreakFn vb.1 (fun i => (att i).lang)
    let V : ViewData := { txt := vb.1, att := att, hasatt := hasatt, emb := emb, lnb := lnb }
    let hypList :=
      if prop.hyphenate then
        getHyphens C.getDict C.wordbreakFn vb.1 hasatt (fun i => (att i).lang)
      else []
    let hyp : Nat → Bool := fun i => decide (i ∈ hypList) && decide (i < vb.1.length)
    match createTextRuns V hyp C.fontEnv C.shaper prop with
    | .error e => .error e
    | .ok runs =>
      .ok (if prop.optimizeLinebreaks then breakLinesOptimize shape prop runs ystart
           else breakLines shape prop runs ystart)

/-! Concrete instances used by the claim theorems, witnesses and
    counterexamples below. -/

/-- Three codepoints; position 0 is English, positions 1–2 are German. -/
def txtC1 : List Nat := [97, 98, 99]

def langC1 : Nat → String := fun i => if i = 0 then "en" else "de"

/-- A German dictionary that offers one hyphen inside the word fed for
    the German section. -/
def dictDe : HyphDict := fun w => if w = [97, 98] then [{ hyphens := 1 }] else []

/-- Dictionaries exist for German only. -/
def gdC1 : String → Option HyphDict := fun s => if s = "de" then some dictDe else none

/-- A word-break analyzer that ends a word after the first codepoint of
    the German section and nowhere else. -/
def wbC1 : List Nat → String → List Nat :=
  fun s l => if s = [98, 99, 0] ∧ l = "de" then [1, 0, 1] else s.map fun _ => 1

/-- The view "xa‑b" where ‑ is U+00AD: position 0 is English, the rest is
    German; the user placed the soft hyphen at position 2. -/
def txtC2 : List Nat := [120, 97, 0xAD, 98]

def langC2 : Nat → String := fun i => if i = 0 then "en" else "de"

/-- An English dictionary that hyphenates the two-codepoint word it is
    fed after its first codepoint. -/
def dictEn : HyphDict := fun w => if w = [120, 97] then [{ hyphens := 1 }] else []

def gdC2 : String → Option HyphDict := fun s => if s = "en" then some dictEn else none

/-- A word-break analyzer that ends a word after the first codepoint of
    the slice [97, AD] and nowhere else. -/
def wbC2 : List Nat → String → List Nat :=
  fun s _ => if s = [97, 0xAD] then [1, 0] else s.map fun _ => 1

/-- A rectangular column from x = 0 to x = 60 (26.6 units). -/
def shapeC : Shape := { getLeft := fun _ _ => 0, getRight := fun _ _ => 60 }

def runC3a : RunInfo :=
  { dx := 50, linebreak := LINEBREAK_ALLOWBREAK, ascender := 10, descender := -2 }

/-- A run wider than the whole column of `shapeC`. -/
def runC3b : RunInfo :=
  { dx := 100, linebreak := LINEBREAK_MUSTBREAK, ascender := 10, descender := -2 }

def runsC3 : List RunInfo := [runC3a, runC3b]

/-- The greedy line state after committing `runC3a` as the first group. -/
def stC3 : LineState := { curAscend := 10, curDescend := -2, curWidth := 50, spos := 1 }

def runsC9 : List RunInfo := [runC3b]

def stC9 : LineState := {}

/-- A run list with a shadowed (layer 1) and a base (layer 0) command. -/
def runsC8 : List RunInfo :=
  [{ run := [(1, mkRectCmd 0 0 1 1 0 0), (0, mkGlyphCmd none 1 0 0 0 0)] }]

/-- A glyph of a run whose cluster attribute is NOT an inline object and
    whose reported vertical advance is non-zero: the situation in which
    createRun raises NonLinearScript. -/
def nonLinearGlyph (V : ViewData) (glyphs : List GlyphData) (j : Nat) : Prop :=
  (V.att (glyphs.getD j default).cluster).inlay = none ∧
  (glyphs.getD j default).yAdvance ≠ 0

/-- An inline object of height 10 and width 5 with no own commands. -/
def inlayC4 : Inlay := { height := 10, right := 5 }

/-- An attribute holding `inlayC4` and resolving every codepoint to font 0. -/
def attrC4 : Attr := { inlay := some inlayC4, font := { get := fun _ => some 0 } }

/-- A one-codepoint view whose single position carries the inline
    object. -/
def viewC4 : ViewData :=
  { txt := [65], att := fun _ => attrC4, lnb := [LINEBREAK_MUSTBREAK] }

/-- A shaper that reports a single glyph with NON-ZERO y_advance. -/
def shaperC4 : ShaperFn := fun _ _ _ _ => [{ codepoint := 7, yAdvance := 3 }]

/-- A shaper that reports all-zero advances (the unshaped buffer). -/
def shaperC4z : ShaperFn := fun _ t _ _ => unshapedGlyphs t 0

def envC4 : Nat → FontMetrics := fun _ => {}

/-- An ordinary (non-inlay) attribute resolving to font 0. -/
def attrC4b : Attr := { font := { get := fun _ => some 0 } }

/-- A one-codepoint view with an ordinary text attribute. -/
def viewC4b : ViewData :=
  { txt := [65], att := fun _ => attrC4b, lnb := [LINEBREAK_MUSTBREAK] }

/-- One MUSTBREAK-terminated run of width 100. -/
def runsC6 : List RunInfo :=
  [{ dx := 100, linebreak := LINEBREAK_MUSTBREAK, ascender := 10, descender := -2 }]

/-- A rectangular column from x = 0 to x = 120. -/
def shapeC6 : Shape := { getLeft := fun _ _ => 0, getRight := fun _ _ => 120 }

/-- The optimizer's lineinfo array before iteration 1: entry 0 is the
    paragraph start. -/
def liC6 : List LineInfo := [{ demerits := 0, ypos := 0, start := true }, default]

/-- The candidate the optimizer computes for the line [1, 1] over
    `runsC6` (badness −172.8 gives linetype 1; the MUSTBREAK override
    yields demerits 0 since 100 > 120/3, and forces the break). -/
def candC6 : LineInfo :=
  { fromIdx := 0, demerits := 0, ascend := 10, descend := -2, width := 100,
    spaces := 0, ypos := 12, forcebreak := true, linetype := 1, hypen := false,
    start := false }

/-- The default collaborator bundle (trivial resolver, analyzers,
    shaper). -/
def collabC10 : Collaborators := {}

/-! Theorems.  Helper lemmas come first, then for each claim C1–C10 one
    theorem (plus witness / counterexample where applicable). -/

/-- The break-group probe never moves backwards. -/
theorem accumGroup_fst_ge (runs : List RunInfo) :
    ∀ fuel n acc, n ≤ (accumGroup runs fuel n acc).1 := by
  intro fuel
  induction fuel with
  | zero => intro n acc; simp [accumGroup]
  | succ f ih =>
    intro n acc
    simp only [accumGroup]
    split
    · split
      · simp
      · exact Nat.le_of_succ_le (ih (n + 1) _)
    · simp

/-- A committed state moves `spos` just past the probed group. -/
theorem commitState_spos (runs : List RunInfo) (runstart : Nat) (st : LineState) :
    (commitState runs runstart st).spos = (groupOf runs st).1 + 1 := rfl

/-- The line accumulation never moves `spos` backwards. -/
theorem lineAccum_spos_ge (shape : Shape) (runs : List RunInfo) (ypos : Int)
    (runstart : Nat) :
    ∀ fuel st, st.spos ≤ (lineAccum shape runs ypos runstart fuel st).spos := by
  intro fuel
  induction fuel with
  | zero => intro st; simp [lineAccum]
  | succ f ih =>
    intro st
    have hg : st.spos ≤ (groupOf runs st).1 := accumGroup_fst_ge runs _ _ _
    have hcs : (commitState runs runstart st).spos = (groupOf runs st).1 + 1 :=
      commitState_spos runs runstart st
    by_cases hA : st.spos < runs.length
    · by_cases hB : (decide (runstart < st.spos) && groupOverruns shape runs ypos st) = true
      · rw [lineAccum, if_pos hA, if_pos hB]
      · rw [lineAccum, if_pos hA, if_neg hB]
        by_cases hC : forcedBreakAfter runs (commitState runs runstart st).spos = true
        · rw [if_pos hC]
          show st.spos ≤ (commitState runs runstart st).spos
          omega
        · rw [if_neg hC]
          exact Nat.le_trans (by omega) (ih (commitState runs runstart st))
    · rw [lineAccum, if_neg hA]

/-- When the line is still empty (`spos = runstart`), the first group is
    committed unconditionally, so `spos` strictly advances. -/
theorem lineAccum_commit_at_start (shape : Shape) (runs : List RunInfo)
    (ypos : Int) (runstart fuel : Nat) (st : LineState)
    (h1 : st.spos < runs.length) (heq : st.spos = runstart) :
    st.spos + 1 ≤ (lineAccum shape runs ypos runstart (fuel + 1) st).spos := by
  have hg : st.spos ≤ (groupOf runs st).1 := accumGroup_fst_ge runs _ _ _
  have hcs : (commitState runs runstart st).spos = (groupOf runs st).1 + 1 :=
    commitState_spos runs runstart st
  have hB : ¬ (decide (runstart < st.spos) && groupOverruns shape runs ypos st) = true := by
    have : decide (runstart < st.spos) = false := by
      simp only [decide_eq_false_iff_not]; omega
    simp [this]
  rw [lineAccum, if_pos h1, if_neg hB]
  by_cases hC : forcedBreakAfter runs (commitState runs runstart st).spos = true
  · rw [if_pos hC]
    show st.spos + 1 ≤ (commitState runs runstart st).spos
    omega
  · rw [if_neg hC]
    exact Nat.le_trans (by omega)
      (lineAccum_spos_ge shape runs ypos runstart fuel (commitState runs runstart st))

/-- Claim C3: a candidate break group that overruns the column is
    rejected (the line ends unchanged) exactly when the line already
    contains at least one run (`runstart < spos`); when the line is still
    empty the group is committed despite the overrun and `spos` strictly
    advances, so the breaker makes progress. -/
theorem claimC3 (shape : Shape) (runs : List RunInfo) (ypos : Int)
    (runstart fuel : Nat) (st : LineState)
    (h1 : st.spos < runs.length)
    (hover : groupOverruns shape runs ypos st = true) :
    (runstart < st.spos → lineAccum shape runs ypos runstart (fuel + 1) st = st) ∧
    (st.spos = runstart → st.spos + 1 ≤ (lineAccum shape runs ypos runstart (fuel + 1) st).spos) := by
  constructor
  · intro hgt
    have hB : (decide (runstart < st.spos) && groupOverruns shape runs ypos st) = true := by
      rw [hover]
      simp [hgt]
    rw [lineAccum, if_pos h1, if_pos hB]
  · intro heq
    exact lineAccum_commit_at_start shape runs ypos runstart fuel st h1 heq

/-- Witness for C3: on the 60-unit column, the 100-unit group after the
    committed first run is rejected with the line state unchanged, while
    the same 100-unit run alone on an empty line is committed. -/
theorem claimC3_witness :
    (lineAccum shapeC runsC3 0 0 (2 + 1) stC3 = stC3) ∧
    stC9.spos + 1 ≤ (lineAccum shapeC runsC9 0 0 (1 + 1) stC9).spos :=
  ⟨(claimC3 shapeC runsC3 0 0 2 stC3 (by decide) (by decide)).1 (by decide),
   (claimC3 shapeC runsC9 0 0 1 stC9 (by decide) (by decide)).2 rfl⟩

/-- One outer iteration of the greedy breaker (skip leading spaces, then
    accumulate one line) strictly advances the first unplaced index. -/
theorem greedy_next_gt (shape : Shape) (prop : LayoutProperties)
    (runs : List RunInfo) (ypos : Int) (runstart0 : Nat) (firstline : Bool)
    (h : runstart0 < runs.length) :
    runstart0 < (greedyLineState shape prop runs ypos (skipSpaceRuns runs runstart0) firstline).spos := by
  have hge : runstart0 ≤ skipSpaceRuns runs runstart0 := by
    unfold skipSpaceRuns; omega
  have hsp : (initLineState prop firstline (skipSpaceRuns runs runstart0)).spos =
      skipSpaceRuns runs runstart0 := rfl
  by_cases hlt : skipSpaceRuns runs runstart0 < runs.length
  · have hstep := lineAccum_commit_at_start shape runs ypos (skipSpaceRuns runs runstart0)
      runs.length (initLineState prop firstline (skipSpaceRuns runs runstart0))
      (by rw [hsp]; exact hlt) rfl
    unfold greedyLineState
    omega
  · unfold greedyLineState
    rw [lineAccum, hsp, if_neg hlt, hsp]
    omega

/-- With enough fuel for the remaining runs, the greedy outer loop's
    result does not depend on the fuel: the loop terminates. -/
theorem breakLinesLoop_fuel (shape : Shape) (prop : LayoutProperties)
    (runs : List RunInfo) :
    ∀ n f1 f2 runstart ypos l firstline,
      runs.length ≤ runstart + n → n < f1 → n < f2 →
      breakLinesLoop shape prop runs f1 runstart ypos l firstline =
      breakLinesLoop shape prop runs f2 runstart ypos l firstline := by
  intro n
  induction n with
  | zero =>
    intro f1 f2 runstart ypos l firstline hb h1 h2
    cases f1 with
    | zero => omega
    | succ a =>
      cases f2 with
      | zero => omega
      | succ b =>
        have hn : ¬ runstart < runs.length := by omega
        rw [breakLinesLoop, breakLinesLoop, if_neg hn, if_neg hn]
  | succ n ih =>
    intro f1 f2 runstart ypos l firstline hb h1 h2
    cases f1 with
    | zero => omega
    | succ a =>
      cases f2 with
      | zero => omega
      | succ b =>
        by_cases hlt : runstart < runs.length
        · have hprog := greedy_next_gt shape prop runs ypos runstart firstline hlt
          rw [breakLinesLoop, breakLinesLoop, if_pos hlt, if_pos hlt]
          refine ih a b _ _ _ _ ?_ ?_ ?_ <;> omega
        · rw [breakLinesLoop, breakLinesLoop, if_neg hlt, if_neg hlt]

/-- Claim C9: the greedy line breaker terminates on every finite run
    list.  Each iteration of its outer loop strictly increases the index
    of the first unplaced run (first conjunct), so the loop ends after at
    most one iteration per run: with any fuel of at least
    `runs.length + 1` (in particular the one breakLines uses) the loop's
    result is fuel independent (second conjunct). -/
theorem claimC9 (shape : Shape) (prop : LayoutProperties) (runs : List RunInfo)
    (ypos : Int) (runstart0 : Nat) (firstline : Bool)
    (h : runstart0 < runs.length) :
    runstart0 < (greedyLineState shape prop runs ypos (skipSpaceRuns runs runstart0) firstline).spos ∧
    ∀ f1 f2 (l : TextLayout), runs.length + 1 ≤ f1 → runs.length + 1 ≤ f2 →
      breakLinesLoop shape prop runs f1 runstart0 ypos l firstline =
      breakLinesLoop shape prop runs f2 runstart0 ypos l firstline := by
  refine ⟨greedy_next_gt shape prop runs ypos runstart0 firstline h, ?_⟩
  intro f1 f2 l h1 h2
  exact breakLinesLoop_fuel shape prop runs runs.length f1 f2 runstart0 ypos l firstline
    (by omega) (by omega) (by omega)

/-- Witness for C9: a single oversized run still advances the start
    index, and the loop's result with fuels 2 and 3 agrees. -/
theorem claimC9_witness :
    0 < (greedyLineState shapeC {} runsC9 0 (skipSpaceRuns runsC9 0) false).spos ∧
    breakLinesLoop shapeC {} runsC9 2 0 0 {} false =
      breakLinesLoop shapeC {} runsC9 3 0 0 {} false :=
  ⟨(claimC9 shapeC {} runsC9 0 0 false (by decide)).1,
   (claimC9 shapeC {} runsC9 0 0 false (by decide)).2 2 3 {} (by decide) (by decide)⟩

/-- Claim C1 (code bug): on a paragraph whose first codepoint is English and
    whose second language section is German, `getHyphens` initialises
    `curLang` from `view.att(0).lang`, so it looks the dictionary up under
    "en" (absent) and extends the section by "en"; it therefore marks NO
    hyphenation point, while the spec's behaviour (section language
    `view.att(sectionstart).lang`, `getHyphensSpec`) consults the German
    dictionary and marks position 2. -/
theorem claimC1 :
    getHyphens gdC1 wbC1 txtC1 (fun _ => true) langC1 = [] ∧
    getHyphensSpec gdC1 wbC1 txtC1 (fun _ => true) langC1 = [2] ∧
    langC1 1 = "de" ∧ langC1 0 = "en" ∧
    (gdC1 (langC1 1)).isSome = true ∧ (gdC1 (langC1 0)).isSome = false := by
  refine ⟨?_, ?_, rfl, rfl, rfl, rfl⟩ <;> rfl

/-- Claim C2 (code bug): in `getHyphens`, the guard
    `view.txt().find_first_of(U+00AD, wordstart) >= j` and the substring
    `substr(wordstart, j-wordstart)` treat the section-relative index
    `wordstart` as absolute.  On the view [120, 97, AD, 98] (languages
    en, de, de, de) the German section starting at 1 contains the word
    [1,3) = "a&shy;" holding the user's soft hyphen at position 2, yet the
    code hyphenates it and sets the mark exactly at position 2, the soft
    hyphen itself. -/
theorem claimC2 :
    getHyphens gdC2 wbC2 txtC2 (fun _ => true) langC2 = [2] ∧
    txtC2.getD 2 0 = 0xAD := by
  exact ⟨rfl, rfl⟩

/-- Unfolding of the view constructor over a stripped codepoint. -/
theorem viewBuild_cons_bidi (k : Nat) (c : Nat) (cs : List Nat)
    (hb : isBidiCharacter c = true) :
    viewBuild k (c :: cs) = viewBuild (k + 1) cs := by
  simp [viewBuild, hb]

/-- Unfolding of the view constructor over a retained codepoint. -/
theorem viewBuild_cons_keep (k : Nat) (c : Nat) (cs : List Nat)
    (hb : isBidiCharacter c = false) :
    viewBuild k (c :: cs) =
      (c :: (viewBuild (k + 1) cs).1, k :: (viewBuild (k + 1) cs).2) := by
  simp [viewBuild, hb]

/-- Every index recorded by the view constructor is at least the running
    index at which the construction started. -/
theorem viewBuild_idx_ge (t : List Nat) :
    ∀ k y, y ∈ (viewBuild k t).2 → k ≤ y := by
  induction t with
  | nil => intro k y h; simp [viewBuild] at h
  | cons c cs ih =>
    intro k y h
    by_cases hb : isBidiCharacter c
    · rw [viewBuild_cons_bidi k c cs hb] at h
      exact Nat.le_of_succ_le (ih (k + 1) y h)
    · rw [viewBuild_cons_keep k c cs (by simpa using hb)] at h
      rcases List.mem_cons.mp h with h | h
      · omega
      · exact Nat.le_of_succ_le (ih (k + 1) y h)

/-- The index map recorded by the view constructor is strictly
    increasing. -/
theorem viewBuild_idx_sorted (t : List Nat) :
    ∀ k, List.Pairwise (· < ·) (viewBuild k t).2 := by
  induction t with
  | nil => intro k; simp [viewBuild]
  | cons c cs ih =>
    intro k
    by_cases hb : isBidiCharacter c
    · rw [viewBuild_cons_bidi k c cs hb]
      exact ih (k + 1)
    · rw [viewBuild_cons_keep k c cs (by simpa using hb)]
      refine List.Pairwise.cons ?_ (ih (k + 1))
      intro y hy
      exact Nat.lt_of_lt_of_le (Nat.lt_succ_self k) (viewBuild_idx_ge cs (k + 1) y hy)

/-- A position is recorded by the view constructor exactly when its
    codepoint is not a stripped bidi control character. -/
theorem viewBuild_idx_mem (t : List Nat) :
    ∀ k i, i < t.length →
      ((k + i ∈ (viewBuild k t).2) ↔ isBidiCharacter (t.getD i 0) = false) := by
  induction t with
  | nil => intro k i h; simp at h
  | cons c cs ih =>
    intro k i h
    by_cases hb : isBidiCharacter c
    · rw [viewBuild_cons_bidi k c cs hb]
      cases i with
      | zero =>
        rw [Nat.add_zero, List.getD_cons_zero, hb]
        constructor
        · intro hmem
          exact absurd (viewBuild_idx_ge cs (k + 1) k hmem) (by omega)
        · intro hfalse; exact absurd hfalse (by simp)
      | succ j =>
        have hj : j < cs.length := by simpa using h
        have harr : k + (j + 1) = (k + 1) + j := by omega
        rw [List.getD_cons_succ, harr]
        exact ih (k + 1) j hj
    · rw [viewBuild_cons_keep k c cs (by simpa using hb)]
      cases i with
      | zero =>
        simp [hb, List.getD_cons_zero]
      | succ j =>
        have hj : j < cs.length := by simpa using h
        have hne : k + (j + 1) ≠ k := by omega
        have harr : k + (j + 1) = (k + 1) + j := by omega
        rw [List.getD_cons_succ]
        constructor
        · intro hmem
          rcases List.mem_cons.mp hmem with hx | hx
          · exact absurd hx hne
          · rw [harr] at hx; exact (ih (k + 1) j hj).mp hx
        · intro hok
          exact List.mem_cons_of_mem _ (by rw [harr]; exact (ih (k + 1) j hj).mpr hok)

/-- Claim C7: the normalized-to-original index map built by the view is
    strictly increasing, and an original position appears in the map
    exactly when its codepoint is not one of U+202A, U+202B, U+202C
    (`isBidiCharacter`). -/
theorem claimC7 (t : List Nat) :
    List.Pairwise (· < ·) (viewBuild 0 t).2 ∧
    ∀ i, i < t.length →
      ((i ∈ (viewBuild 0 t).2) ↔ isBidiCharacter (t.getD i 0) = false) := by
  refine ⟨viewBuild_idx_sorted t 0, fun i hi => ?_⟩
  simpa using viewBuild_idx_mem t 0 i hi

/-- Claim C5: with `spaceLeft = right − left − curWidth`, addLine's
    alignment switch yields exactly the claimed table: LEFT starts at
    `left` (plus indent on a first line) with no widening; RIGHT at
    `left + spaceLeft`; CENTER at `left + spaceLeft/2`; JUSTIFY_LEFT like
    LEFT but widening each space by `spaceLeft/numSpace` except on a last
    line or with no spaces; JUSTIFY_RIGHT starts at `left + spaceLeft` on
    a last line (or with no spaces) and otherwise at `left`, widening by
    `spaceLeft/numSpace`. -/
theorem claimC5 (prop : LayoutProperties) (flags : LineFlags) (numSpace : Nat)
    (left right curWidth : Int) :
    alignParams prop flags numSpace (right - left - curWidth) left =
      (match prop.align with
       | Alignment.left => (left + (if flags.first then prop.indent else 0), (0 : ℚ))
       | Alignment.right => (left + (right - left - curWidth), 0)
       | Alignment.center => (left + cdiv (right - left - curWidth) 2, 0)
       | Alignment.justifyLeft =>
         (left + (if flags.first then prop.indent else 0),
          if flags.last ∨ numSpace = 0 then 0
          else ((right - left - curWidth : Int) : ℚ) / (numSpace : ℚ))
       | Alignment.justifyRight =>
         if flags.last ∨ numSpace = 0 then (left + (right - left - curWidth), 0)
         else (left, ((right - left - curWidth : Int) : ℚ) / (numSpace : ℚ))) := by
  obtain ⟨ltr, align, indent, hyph, opt, uf, links⟩ := prop
  obtain ⟨ff, fl, fs⟩ := flags
  cases align <;> cases fl <;>
    by_cases hn : numSpace = 0 <;>
    simp [alignParams, hn, Nat.pos_iff_ne_zero]

/-- Every command emitted by one layer pass carries the target layer. -/
theorem emitLayerPass_layer (runs : List RunInfo) (spos target : Nat) :
    ∀ idxs x, x ∈ emitLayerPass runs spos target idxs → x.1 = target := by
  intro idxs
  induction idxs with
  | nil => intro x hx; simp [emitLayerPass] at hx
  | cons i rest ih =>
    intro x hx
    simp only [emitLayerPass] at hx
    rcases List.mem_append.mp hx with hx | hx
    · split at hx
      · split at hx
        · have h2 := List.mem_filter.mp hx
          simpa using h2.2
        · have h2 := List.mem_filter.mp hx
          have h3 := h2.2
          simp only [Bool.and_eq_true, beq_iff_eq] at h3
          exact h3.1
      · simp at hx
    · exact ih x hx

/-- Every command emitted by the descending layer loop below bound `t`
    carries a layer smaller than `t`. -/
theorem emitLayersDown_layer_lt (runs : List RunInfo) (spos : Nat)
    (idxs : List Nat) :
    ∀ t x, x ∈ emitLayersDown runs spos idxs t → x.1 < t := by
  intro t
  induction t with
  | zero => intro x hx; simp [emitLayersDown] at hx
  | succ n ih =>
    intro x hx
    simp only [emitLayersDown] at hx
    rcases List.mem_append.mp hx with hx | hx
    · rw [emitLayerPass_layer runs spos n idxs x hx]; omega
    · exact Nat.lt_succ_of_lt (ih x hx)

/-- A list of commands all on one layer is pairwise non-increasing. -/
theorem pairwise_layers_aux {l : List (Nat × CommandData)} {t : Nat}
    (h : ∀ x ∈ l, x.1 = t) :
    List.Pairwise (fun a b : Nat × CommandData => b.1 ≤ a.1) l := by
  induction l with
  | nil => exact List.Pairwise.nil
  | cons x xs ih =>
    refine List.Pairwise.cons (fun y hy => ?_)
      (ih fun y hy => h y (List.mem_cons_of_mem _ hy))
    rw [h x (List.mem_cons_self _ _), h y (List.mem_cons_of_mem _ hy)]

/-- Claim C8: within one line the emitted stream is ordered by strictly
    descending layer groups (highest layer first, layer 0 last), and every
    shadow command created for a glyph or for an underline carries a
    strictly positive layer, hence a strictly greater layer than its base
    command at layer 0, so in the emitted stream every shadow precedes the
    base commands. -/
theorem claimC8 :
    (∀ (runs : List RunInfo) (spos : Nat) (idxs : List Nat) (t : Nat),
       List.Pairwise (fun a b : Nat × CommandData => b.1 ≤ a.1)
         (emitLayersDown runs spos idxs t)) ∧
    (∀ (n : Nat) (shadows : List Shadow) (font : Option Nat) (gi : Nat)
       (gx gy : Int) (x : Nat × CommandData),
       x ∈ glyphShadowCmds n shadows font gi gx gy → 0 < x.1) ∧
    (∀ (shadows : List Shadow) (gx gy gw gh : Int) (x : Nat × CommandData),
       x ∈ underlineShadowCmds shadows gx gy gw gh → 0 < x.1) := by
  refine ⟨?_, ?_, ?_⟩
  · intro runs spos idxs t
    induction t with
    | zero => exact List.Pairwise.nil
    | succ n ih =>
      rw [emitLayersDown, List.pairwise_append]
      refine ⟨pairwise_layers_aux (fun x hx => emitLayerPass_layer runs spos n idxs x hx),
        ih, ?_⟩
      intro a ha b hb
      rw [emitLayerPass_layer runs spos n idxs a ha]
      exact Nat.le_of_lt (emitLayersDown_layer_lt runs spos idxs n b hb)
  · intro n shadows font gi gx gy x hx
    simp only [glyphShadowCmds, List.mem_map, List.mem_range] at hx
    obtain ⟨j, hj, rfl⟩ := hx
    simp only []
    omega
  · intro shadows gx gy gw gh x hx
    simp only [underlineShadowCmds, List.mem_map, List.mem_range] at hx
    obtain ⟨j, hj, rfl⟩ := hx
    simp only []
    omega

/-- Witness for C8: the example line of `runsC8` emits its layer-1
    rectangle before its layer-0 glyph, and concrete single-shadow glyph
    and underline commands sit on layer 1 > 0. -/
theorem claimC8_witness :
    List.Pairwise (fun a b : Nat × CommandData => b.1 ≤ a.1)
      (emitLayersDown runsC8 1 [0] 2) ∧
    0 < ((glyphShadowCmds 1 [{}] none 5 0 0).getD 0 default).1 ∧
    0 < ((underlineShadowCmds [{}] 0 0 0 0).getD 0 default).1 :=
  ⟨claimC8.1 runsC8 1 [0] 2,
   claimC8.2.1 1 [{}] none 5 0 0 _ (by decide),
   claimC8.2.2 [{}] 0 0 0 0 _ (by decide)⟩

/-- The output pass only ever fails on a non-inlay glyph with non-zero
    y_advance. -/
theorem pass2Step_error_imp (V : ViewData) (prop : LayoutProperties)
    (runstart : Nat) (asc : Int) (font : Option Nat) (glyphs : List GlyphData)
    (xOffsets : List Int) (st : Pass2State) (j : Nat) (e : LayoutError)
    (hstep : pass2Step V prop runstart asc font glyphs xOffsets st j = .error e) :
    nonLinearGlyph V glyphs j ∧ e = .nonLinearScript := by
  cases hinl : (V.att (glyphs.getD j default).cluster).inlay with
  | some inl =>
    simp only [pass2Step, hinl] at hstep
    exact Except.noConfusion hstep
  | none =>
    by_cases hz : (glyphs.getD j default).yAdvance = 0
    · simp only [pass2Step, hinl, if_neg (not_not_intro hz)] at hstep
      exact Except.noConfusion hstep
    · simp only [pass2Step, hinl, if_pos hz] at hstep
      exact ⟨⟨hinl, hz⟩, (Except.error.injEq _ _).mp hstep.symm⟩

/-- A step on a glyph that is not non-linear does not fail. -/
theorem pass2Step_ok (V : ViewData) (prop : LayoutProperties)
    (runstart : Nat) (asc : Int) (font : Option Nat) (glyphs : List GlyphData)
    (xOffsets : List Int) (st : Pass2State) (j : Nat)
    (h : ¬ nonLinearGlyph V glyphs j) (e : LayoutError) :
    pass2Step V prop runstart asc font glyphs xOffsets st j ≠ .error e := by
  intro hstep
  exact h (pass2Step_error_imp V prop runstart asc font glyphs xOffsets st j e hstep).1

/-- If the iteration order contains a non-linear glyph, the output pass
    fails with NonLinearScript. -/
theorem pass2Run_error_of_bad (V : ViewData) (prop : LayoutProperties)
    (runstart : Nat) (asc : Int) (font : Option Nat) (glyphs : List GlyphData)
    (xOffsets : List Int) :
    ∀ order st, (∃ j ∈ order, nonLinearGlyph V glyphs j) →
      pass2Run V prop runstart asc font glyphs xOffsets order st =
        .error .nonLinearScript := by
  intro order
  induction order with
  | nil => intro st h; simp at h
  | cons j0 rest ih =>
    intro st h
    by_cases hbad : nonLinearGlyph V glyphs j0
    · obtain ⟨hinl, hadv⟩ := hbad
      have hstep : pass2Step V prop runstart asc font glyphs xOffsets st j0 =
          .error .nonLinearScript := by
        simp only [pass2Step, hinl, if_pos hadv]
      simp only [pass2Run, hstep]
    · have hrest : ∃ j ∈ rest, nonLinearGlyph V glyphs j := by
        rcases h with ⟨j, hj, hb⟩
        rcases List.mem_cons.mp hj with rfl | hj2
        · exact absurd hb hbad
        · exact ⟨j, hj2, hb⟩
      simp only [pass2Run]
      cases hstep : pass2Step V prop runstart asc font glyphs xOffsets st j0 with
      | error e =>
        exact absurd hstep
          (pass2Step_ok V prop runstart asc font glyphs xOffsets st j0 hbad e)
      | ok st2 => exact ih st2 hrest

/-- If every glyph of the iteration order has zero y_advance, the output
    pass never fails. -/
theorem pass2Run_ok_of_zero (V : ViewData) (prop : LayoutProperties)
    (runstart : Nat) (asc : Int) (font : Option Nat) (glyphs : List GlyphData)
    (xOffsets : List Int) :
    ∀ order st, (∀ j ∈ order, (glyphs.getD j default).yAdvance = 0) →
      ∀ e, pass2Run V prop runstart asc font glyphs xOffsets order st ≠ .error e := by
  intro order
  induction order with
  | nil => intro st h e; simp [pass2Run]
  | cons j0 rest ih =>
    intro st h e
    simp only [pass2Run]
    cases hstep : pass2Step V prop runstart asc font glyphs xOffsets st j0 with
    | error e2 =>
      have hb := (pass2Step_error_imp V prop runstart asc font glyphs xOffsets st j0 e2 hstep).1
      exact absurd (h j0 (List.mem_cons_self _ _)) hb.2
    | ok st2 => exact ih st2 (fun j hj => h j (List.mem_cons_of_mem _ hj)) e

/-- The iteration order of the output pass covers exactly the glyph
    indices below the count. -/
theorem pass2Order_mem (n : Nat) (rtl : Bool) (j : Nat) :
    j ∈ pass2Order n rtl ↔ j < n := by
  cases rtl with
  | false => simp [pass2Order]
  | true =>
    constructor
    · intro hj
      simp only [pass2Order, List.mem_map, List.mem_range] at hj
      obtain ⟨jj, hjj, hje⟩ := hj
      have h2 : n - 1 - jj = j := by simpa using hje
      omega
    · intro hj
      simp only [pass2Order, List.mem_map, List.mem_range]
      refine ⟨n - 1 - j, by omega, ?_⟩
      rw [if_pos trivial]
      omega

/-- Claim C4 (corrected): if the shaper reports a glyph with non-zero
    y_advance ON A NON-INLAY CLUSTER, createRun fails with
    NonLinearScript; runs whose glyphs all have zero y_advance never raise
    this error.  (As stated, without the non-inlay proviso, the claim is
    refuted by `claimC4_counterexample`: the y_advance of a glyph whose
    cluster attribute is an inline object is ignored.) -/
theorem claimC4 (V : ViewData) (env : Nat → FontMetrics) (shaper : ShaperFn)
    (spos runstart : Nat) (prop : LayoutProperties) (font : Option Nat) :
    ((∃ j, j < (runGlyphs V env shaper spos runstart font).length ∧
        nonLinearGlyph V (runGlyphs V env shaper spos runstart font) j) →
      createRun V env shaper spos runstart prop font =
        .error .nonLinearScript) ∧
    ((∀ j, j < (runGlyphs V env shaper spos runstart font).length →
        ((runGlyphs V env shaper spos runstart font).getD j default).yAdvance = 0) →
      createRun V env shaper spos runstart prop font ≠
        .error .nonLinearScript) := by
  constructor
  · rintro ⟨j, hj, hbad⟩
    have hE : runPass2 V env shaper spos runstart prop font = .error .nonLinearScript := by
      unfold runPass2
      exact pass2Run_error_of_bad V prop runstart _ font _ _ _ _
        ⟨j, (pass2Order_mem _ _ j).mpr hj, hbad⟩
    simp only [createRun, hE]
  · intro hz hcontra
    have hne : ∀ e, runPass2 V env shaper spos runstart prop font ≠ .error e := by
      intro e
      unfold runPass2
      exact pass2Run_ok_of_zero V prop runstart _ font _ _ _ _
        (fun j hj => hz j ((pass2Order_mem _ _ j).mp hj)) e
    rcases hrun : runPass2 V env shaper spos runstart prop font with e | p2
    · exact hne e hrun
    · simp only [createRun, hrun] at hcontra
      exact Except.noConfusion hcontra

/-- Counterexample to C4 as stated: a run on an inline-object cluster
    whose shaper output reports y_advance = 3 is still created without an
    error. -/
theorem claimC4_counterexample :
    ((runGlyphs viewC4 envC4 shaperC4 1 0 (some 0)).getD 0 default).yAdvance ≠ 0 ∧
    createRun viewC4 envC4 shaperC4 1 0 {} (some 0) =
      Except.ok { run := [], dx := 5, dy := 0, embeddingLevel := 0, linebreak := 0,
                  font := some 0, space := false, shy := false, ascender := 10,
                  descender := 0, links := [] } := by
  exact ⟨by decide, rfl⟩

/-- Witness for C4: on a non-inlay one-glyph run, a reported y_advance of
    3 raises NonLinearScript, while the all-zero shaping of the same run
    does not. -/
theorem claimC4_witness :
    createRun viewC4b envC4 shaperC4 1 0 {} (some 0) =
      Except.error LayoutError.nonLinearScript ∧
    createRun viewC4b envC4 shaperC4z 1 0 {} (some 0) ≠
      Except.error LayoutError.nonLinearScript :=
  ⟨(claimC4 viewC4b envC4 shaperC4 1 0 {} (some 0)).1 ⟨0, by decide, by decide, by decide⟩,
   (claimC4 viewC4b envC4 shaperC4z 1 0 {} (some 0)).2 (by decide)⟩

/-- Claim C6: for a candidate line ending at a MUSTBREAK run or at the
    end of the run list that is not rejected as overfull, the demerits
    computed from badness and linetype are overridden: the candidate's
    stored demerits are 0 if the line's width exceeds one third of the
    column width at that vertical position and 100000 otherwise (plus the
    predecessor's accumulated path demerits, added afterwards as for
    every candidate), and the break is marked forced. -/
theorem claimC6 (shape : Shape) (prop : LayoutProperties) (runs : List RunInfo)
    (li : List LineInfo) (i start : Nat) (cand : LineInfo)
    (hEnd : (runs.getD (i - 1) default).linebreak = LINEBREAK_MUSTBREAK ∨ i = runs.length)
    (hC : evalCandidate shape prop runs li i start = some cand) :
    cand.demerits =
      (if optWidth prop runs start i >
          cdiv ((optLR shape prop runs li i start).2 - (optLR shape prop runs li i start).1) 3
       then 0 else 100000) + (li.getD (start - 1) default).demerits ∧
    cand.forcebreak = true := by
  by_cases hT : (optLR shape prop runs li i start).1 + (optAccum prop runs start i).2.2.2.2.1 >
      (optLR shape prop runs li i start).2
  · exfalso
    simp only [evalCandidate, if_pos hT] at hC
    exact Option.noConfusion hC
  · simp only [evalCandidate, if_neg hT, if_pos hEnd] at hC
    rw [← (Option.some.injEq _ _).mp hC]
    refine ⟨by simp only [optWidth], ?_⟩
    exact decide_eq_true hEnd

/-- Witness for C6: the single 100-unit MUSTBREAK run on the 120-unit
    column gets the override demerits 0 (100 > 120/3) and a forced
    break. -/
theorem claimC6_witness :
    candC6.demerits =
      (if optWidth {} runsC6 1 1 >
          cdiv ((optLR shapeC6 {} runsC6 liC6 1 1).2 - (optLR shapeC6 {} runsC6 liC6 1 1).1) 3
       then 0 else 100000) + (liC6.getD 0 default).demerits ∧
    candC6.forcebreak = true :=
  claimC6 shapeC6 {} runsC6 liC6 1 1 candC6 (by decide) (by
    simp only [evalCandidate, optLR, optAccum, optWidth, runsC6, shapeC6, liC6, candC6,
      skipSpaceRuns, skipSpaceSteps, skipSpaceRunsBwd, qabs, qcube, cdiv,
      LINEBREAK_MUSTBREAK]
    norm_num
    decide)

/-- A string of stripped bidi control characters yields the empty view. -/
theorem viewBuild_allBidi (t : List Nat) :
    ∀ k, (∀ c ∈ t, isBidiCharacter c = true) → viewBuild k t = ([], []) := by
  induction t with
  | nil => intro k _; rfl
  | cons c cs ih =>
    intro k hall
    rw [viewBuild_cons_bidi k c cs (hall c (List.mem_cons_self _ _))]
    exact ih (k + 1) fun x hx => hall x (List.mem_cons_of_mem _ hx)

/-- The greedy breaker on an empty run list returns the empty layout of
    height ystart. -/
theorem breakLines_nil (shape : Shape) (prop : LayoutProperties) (ystart : Int) :
    breakLines shape prop [] ystart =
      { commands := [], links := [], firstBaseline := 0, height := ystart,
        left := shape.getLeft2 ystart ystart, right := shape.getRight2 ystart ystart } := rfl

/-- The optimizing breaker on an empty run list returns the empty layout
    of height ystart. -/
theorem breakLinesOptimize_nil (shape : Shape) (prop : LayoutProperties) (ystart : Int) :
    breakLinesOptimize shape prop [] ystart =
      { commands := [], links := [], firstBaseline := 0, height := ystart,
        left := shape.getLeft2 ystart ystart, right := shape.getRight2 ystart ystart } := rfl

/-- Claim C10: for an empty input string, and likewise when every input
    codepoint is a stripped bidi control character (U+202A/202B/202C),
    layoutParagraph succeeds (given that the external bidi resolver
    returns levels) with a layout containing no draw commands and no
    links, whose total height equals ystart — under both the greedy and
    the optimizing line breaker (the claim quantifies over
    `prop.optimizeLinebreaks`). -/
theorem claimC10 (C : Collaborators) (txt : List Nat) (attrGet : Nat → Attr)
    (attrHas : Nat → Bool) (shape : Shape) (prop : LayoutProperties)
    (ystart : Int) (lv : List Nat)
    (hall : ∀ c ∈ txt, isBidiCharacter c = true)
    (hb : C.bidi txt prop.ltr = some lv) :
    ∃ L, layoutParagraph C txt attrGet attrHas shape prop ystart = .ok L ∧
      L.commands = [] ∧ L.links = [] ∧ L.height = ystart := by
  have hv : viewBuild 0 txt = ([], []) := viewBuild_allBidi txt 0 hall
  by_cases hopt : prop.optimizeLinebreaks
  · refine ⟨breakLinesOptimize shape prop [] ystart, ?_, ?_, ?_, ?_⟩
    · simp only [layoutParagraph, hb, hv, getLinebreaks, getLinebreaksLoop,
        getHyphens, getHyphensLoop, createTextRuns, createTextRunsLoop,
        List.length_nil, List.replicate, ite_self, hopt, if_true]
      simp
    · rw [breakLinesOptimize_nil]
    · rw [breakLinesOptimize_nil]
    · rw [breakLinesOptimize_nil]
  · refine ⟨breakLines shape prop [] ystart, ?_, ?_, ?_, ?_⟩
    · simp only [layoutParagraph, hb, hv, getLinebreaks, getLinebreaksLoop,
        getHyphens, getHyphensLoop, createTextRuns, createTextRunsLoop,
        List.length_nil, List.replicate, ite_self, hopt, if_false]
      simp
    · rw [breakLines_nil]
    · rw [breakLines_nil]
    · rw [breakLines_nil]

/-- Witness for C10: the two-codepoint bidi-control-only paragraph
    [U+202A, U+202C] lays out to the empty layout of height 7. -/
theorem claimC10_witness :
    ∃ L, layoutParagraph collabC10 [0x202A, 0x202C] (fun _ => {}) (fun _ => true)
        shapeC {} 7 = .ok L ∧ L.commands = [] ∧ L.links = [] ∧ L.height = 7 :=
  claimC10 collabC10 [0x202A, 0x202C] (fun _ => {}) (fun _ => true) shapeC {} 7
    [0, 0] (by decide) rfl

/-- Witness for C7 on the concrete paragraph [65, 0x202A, 66]: the map is
    [0, 2], position 1 (the LRE control) is skipped, position 2 is kept. -/
theorem claimC7_witness :
    (List.Pairwise (· < ·) (viewBuild 0 [65, 0x202A, 66]).2 ∧
      ((1 ∈ (viewBuild 0 [65, 0x202A, 66]).2) ↔
        isBidiCharacter ([65, 0x202A, 66].getD 1 0) = false)) ∧
    ((2 ∈ (viewBuild 0 [65, 0x202A, 66]).2) ↔
      isBidiCharacter ([65, 0x202A, 66].getD 2 0) = false) :=
  ⟨⟨(claimC7 [65, 0x202A, 66]).1, (claimC7 [65, 0x202A, 66]).2 1 (by decide)⟩,
   (claimC7 [65, 0x202A, 66]).2 2 (by decide)⟩

end STLL
